import Mathlib

/-!
# ready-go-cli: configuration model, manifest and generation orchestrator

A shallow embedding of `internal/config/project_config.go`,
`internal/generator/project.go` and `internal/generator/templates.go`.

Conventions.
* A Go `string` is a Lean `String`, read as its sequence of runes (well-formed UTF-8).
* A Go `error` is `Option String`: `none` is `nil`, `some m` is an error whose
  message is `m`.
* The Unicode case and category tables of Go's `unicode` package are a parameter
  (`UnicodeTables`); the ASCII fast paths of `unicode.ToTitle`, `unicode.ToLower`
  and `strings.isSeparator` are written out as in the standard library.
* `path/filepath` is the Unix one: the separator is `/` and there is no volume name.
* The operating system, the template engine and the external commands are a
  parameter (`Sys`) over an arbitrary state type.
-/

namespace ReadyGo

/-! ## Go standard library: `unicode` and `strings` -/

/-- Tables of Go's `unicode` package for runes above `unicode.MaxASCII`:
`unicode.To(TitleCase, r)`, `unicode.To(LowerCase, r)`, `unicode.IsLetter`,
`unicode.IsDigit` and `unicode.IsSpace`. -/
structure UnicodeTables where
  toTitle : Char → Char
  toLower : Char → Char
  isLetter : Char → Bool
  isDigit : Char → Bool
  isSpace : Char → Bool

/-- Go `unicode.MaxASCII` test: `r <= 0x7F`. -/
def isASCII (r : Char) : Bool := decide (r.toNat ≤ 0x7F)

/-- Go `unicode.ToTitle`. -/
def unicodeToTitle (U : UnicodeTables) (r : Char) : Char :=
  if isASCII r then
    if 'a'.toNat ≤ r.toNat ∧ r.toNat ≤ 'z'.toNat then Char.ofNat (r.toNat - ('a'.toNat - 'A'.toNat))
    else r
  else U.toTitle r

/-- Go `unicode.ToLower`. -/
def unicodeToLower (U : UnicodeTables) (r : Char) : Char :=
  if isASCII r then
    if 'A'.toNat ≤ r.toNat ∧ r.toNat ≤ 'Z'.toNat then Char.ofNat (r.toNat + ('a'.toNat - 'A'.toNat))
    else r
  else U.toLower r

/-- Go `strings.isSeparator`: ASCII alphanumerics and underscore are not
separators, every other ASCII rune is; above ASCII, letters and digits are not
separators and otherwise only spaces are. -/
def isSeparator (U : UnicodeTables) (r : Char) : Bool :=
  if isASCII r then
    if '0'.toNat ≤ r.toNat ∧ r.toNat ≤ '9'.toNat then false
    else if 'a'.toNat ≤ r.toNat ∧ r.toNat ≤ 'z'.toNat then false
    else if 'A'.toNat ≤ r.toNat ∧ r.toNat ≤ 'Z'.toNat then false
    else if r = '_' then false
    else true
  else if U.isLetter r || U.isDigit r then false
  else U.isSpace r

/-- The closure of Go `strings.Title` mapped over the runes in order: `prev` is
the rune seen before (the untouched input rune), and a rune is title-cased when
`prev` is a separator. -/
def titleRunes (U : UnicodeTables) : Char → List Char → List Char
  | _, [] => []
  | prev, r :: rs =>
    (if isSeparator U prev then unicodeToTitle U r else r) :: titleRunes U r rs

/-- Go `strings.Title`: `prev` starts as a blank. -/
def Title (U : UnicodeTables) (s : String) : String :=
  ⟨titleRunes U ' ' s.data⟩

/-- Go `strings.ToLower`: `unicode.ToLower` on every rune. -/
def ToLower (U : UnicodeTables) (s : String) : String :=
  ⟨s.data.map (unicodeToLower U)⟩

/-- Go `strings.HasSuffix`: `len(s) >= len(suffix) && s[len(s)-len(suffix):] == suffix`,
on runes (in well-formed UTF-8 a suffix of bytes that is well-formed is a suffix
of runes). -/
def HasSuffix (s suffix : String) : Bool :=
  decide (suffix.data.length ≤ s.data.length) &&
    decide (s.data.drop (s.data.length - suffix.data.length) = suffix.data)

/-- Go `strings.TrimSuffix`: `s[:len(s)-len(suffix)]` when `s` has the suffix, else `s`. -/
def TrimSuffix (s suffix : String) : String :=
  if HasSuffix s suffix then ⟨s.data.take (s.data.length - suffix.data.length)⟩ else s

/-! ## Go standard library: the one regular expression of the program -/

/-- A bracket expression as its list of inclusive rune ranges. -/
def inClass (ranges : List (Char × Char)) (r : Char) : Bool :=
  ranges.any fun p => decide (p.1.toNat ≤ r.toNat) && decide (r.toNat ≤ p.2.toNat)

/-- The bracket expression `[a-zA-Z0-9_-]`. -/
def nameClass : List (Char × Char) :=
  [('a', 'z'), ('A', 'Z'), ('0', '9'), ('_', '_'), ('-', '-')]

/-- A matcher for `^[class]+$` (no flags: `^` and `$` are the two ends of the
text): one rune of the class, then either the end of the text or the same again. -/
def matchClassPlus (ranges : List (Char × Char)) : List Char → Bool
  | [] => false
  | r :: rest => inClass ranges r && (rest.isEmpty || matchClassPlus ranges rest)

/-- Go `regexp.MatchString` applied to the pattern of `Validate`, `^[a-zA-Z0-9_-]+$`. -/
def matchProjectName (s : String) : Bool :=
  matchClassPlus nameClass s.data

/-! ## `internal/config/project_config.go` -/

/-- ProjectConfig holds all configuration for generating a new project. -/
structure ProjectConfig where
  ProjectName : String
  ModuleName : String
  Description : String
  Author : String
  GoVersion : String
  OutputDir : String
  WithRedis : Bool
  WithKafka : Bool
  SampleAPIName : String
  SampleAPINameLower : String
  SampleTableName : String
  MySQLVersion : String
  RedisVersion : String
  KafkaVersion : String
  AppPort : Int
  MySQLPort : Int
  RedisPort : Int
  KafkaPort : Int
  KafkaUIPort : Int
  SkipGit : Bool
  deriving DecidableEq, Repr

/-- NewProjectConfig creates a new ProjectConfig with default values; the fields
the composite literal does not name (`SampleAPINameLower`, `SampleTableName`)
get Go's zero value, the empty string. -/
def NewProjectConfig (projectName : String) : ProjectConfig where
  ProjectName := projectName
  ModuleName := "github.com/username/" ++ projectName
  Description := "A " ++ projectName ++ " service"
  Author := ""
  GoVersion := "1.23"
  OutputDir := "."
  WithRedis := true
  WithKafka := true
  SampleAPIName := "User"
  SampleAPINameLower := ""
  SampleTableName := ""
  MySQLVersion := "8.0"
  RedisVersion := "7-alpine"
  KafkaVersion := "7.6.0"
  AppPort := 8080
  MySQLPort := 3306
  RedisPort := 6379
  KafkaPort := 9092
  KafkaUIPort := 8090
  SkipGit := false

/-- Error of the first check of `Validate`. -/
def errProjectNameEmpty : String := "project name cannot be empty"

/-- Error of the second check of `Validate`. -/
def errProjectNameChars : String :=
  "project name can only contain letters, numbers, hyphens, and underscores"

/-- Error of the third check of `Validate`. -/
def errModuleNameEmpty : String := "module name cannot be empty"

/-- Error of the fourth check of `Validate`. -/
def errSampleAPINameEmpty : String := "sample API name cannot be empty"

/-- Validate checks if the configuration is valid. -/
def Validate (c : ProjectConfig) : Option String :=
  if c.ProjectName = "" then some errProjectNameEmpty
  else if !matchProjectName c.ProjectName then some errProjectNameChars
  else if c.ModuleName = "" then some errModuleNameEmpty
  else if c.SampleAPIName = "" then some errSampleAPINameEmpty
  else none

/-- The function pluralize converts a singular word to plural (simple implementation). -/
def pluralize (word : String) : String :=
  if HasSuffix word "y" then TrimSuffix word "y" ++ "ies"
  else if HasSuffix word "s" || HasSuffix word "x" || HasSuffix word "ch" || HasSuffix word "sh" then
    word ++ "es"
  else word ++ "s"

/-- Process calculates derived fields from the configuration: the three
assignments of the source, each reading the fields as the one before left them. -/
def Process (U : UnicodeTables) (c : ProjectConfig) : ProjectConfig :=
  let c1 := { c with SampleAPIName := Title U c.SampleAPIName }
  let c2 := { c1 with SampleAPINameLower := ToLower U c1.SampleAPIName }
  { c2 with SampleTableName := pluralize c2.SampleAPINameLower }

/-- A fragment of the Unicode tables: the Latin-1 letters `à`..`þ` (without `÷`)
and their capitals `À`..`Þ` (without `×`), and the no-break space. Runes outside
the fragment are left alone and belong to no category. -/
def latin1Tables : UnicodeTables where
  toTitle := fun r =>
    if 0xE0 ≤ r.toNat ∧ r.toNat ≤ 0xFE ∧ r.toNat ≠ 0xF7 then Char.ofNat (r.toNat - 32) else r
  toLower := fun r =>
    if 0xC0 ≤ r.toNat ∧ r.toNat ≤ 0xDE ∧ r.toNat ≠ 0xD7 then Char.ofNat (r.toNat + 32) else r
  isLetter := fun r =>
    decide ((0xC0 ≤ r.toNat ∧ r.toNat ≤ 0xDE ∧ r.toNat ≠ 0xD7) ∨
      (0xE0 ≤ r.toNat ∧ r.toNat ≤ 0xFE ∧ r.toNat ≠ 0xF7))
  isDigit := fun _ => false
  isSpace := fun r => decide (r.toNat = 0xA0)

/-! ## Go standard library: `path/filepath` on Unix -/

/-- The path elements between separators: `a//b` has the elements `a`, the
empty one and `b`. -/
def splitSep : List Char → List (List Char)
  | [] => [[]]
  | ch :: rest =>
    if ch = '/' then [] :: splitSep rest
    else
      match splitSep rest with
      | [] => [[ch]]
      | e :: es => (ch :: e) :: es

/-- The elements joined with `sep` between them, as `strings.Join` does. -/
def joinWith (sep : List Char) : List (List Char) → List Char
  | [] => []
  | [e] => e
  | e :: rest => e ++ sep ++ joinWith sep rest

/-- The output buffer of `filepath.Clean`, element by element: `out` holds the
elements written so far and `dotdot` counts the leading elements that `..` must
not remove (a leading run of `..` of a path that is not rooted). -/
structure CleanBuf where
  out : List (List Char)
  dotdot : Nat
  deriving DecidableEq, Repr

/-- One round of the loop of `filepath.Clean`, on the next path element. -/
def cleanStep (rooted : Bool) (b : CleanBuf) (e : List Char) : CleanBuf :=
  if e = [] then b
  else if e = ['.'] then b
  else if e = ['.', '.'] then
    if b.dotdot < b.out.length then { b with out := b.out.dropLast }
    else if !rooted then { out := b.out ++ [e], dotdot := b.out.length + 1 }
    else b
  else { b with out := b.out ++ [e] }

/-- Go `filepath.Clean`: the shortest path equivalent to `path` by purely
lexical processing; the empty result is `.`. -/
def Clean (path : String) : String :=
  if path = "" then "."
  else
    let rooted : Bool := decide (path.data.head? = some '/')
    let b := (splitSep path.data).foldl (cleanStep rooted) ⟨[], 0⟩
    let out := (if rooted then ['/'] else []) ++ joinWith ['/'] b.out
    if out = [] then "." else ⟨out⟩

/-- Go `strings.Join`. -/
def stringsJoin (elems : List String) (sep : String) : String :=
  ⟨joinWith sep.data (elems.map String.data)⟩

/-- Go `filepath.Join`: the elements from the first non-empty one on are joined
with the separator and cleaned; with no non-empty element the result is empty. -/
def Join : List String → String
  | [] => ""
  | e :: rest => if e ≠ "" then Clean (stringsJoin (e :: rest) "/") else Join rest

/-- Go `filepath.Dir`: all but the last element of `path`: the runes after the
last separator are dropped and what is left goes through `Clean`. -/
def Dir (path : String) : String :=
  Clean ⟨path.data.rdropWhile fun ch => decide (ch ≠ '/')⟩

/-! ## `internal/generator`: the manifest -/

/-- The target of `Generate`: `filepath.Join(g.config.OutputDir, g.config.ProjectName)`. -/
def projectPathOf (c : ProjectConfig) : String :=
  Join [c.OutputDir, c.ProjectName]

/-- The slice `dirs` of `createDirectoryStructure`. -/
def directories (c : ProjectConfig) (projectPath : String) : List String :=
  [ projectPath,
    Join [projectPath, "cmd", "server"],
    Join [projectPath, "internal", "config"],
    Join [projectPath, "internal", "database", "migrations"],
    Join [projectPath, "internal", "database", "query"],
    Join [projectPath, "internal", "database", "store"],
    Join [projectPath, "internal", "entity"],
    Join [projectPath, "internal", "dto", "request"],
    Join [projectPath, "internal", "dto", "response"],
    Join [projectPath, "internal", "repository"],
    Join [projectPath, "internal", "service", c.SampleAPINameLower],
    Join [projectPath, "internal", "handler", "health"],
    Join [projectPath, "internal", "handler", c.SampleAPINameLower] ]

/-- The path elements that follow `projectPath` in each entry of the slice
`files` of `generateFiles`, with the entry's template. -/
def fileElems (c : ProjectConfig) : List (String × List String) :=
  [ ("project/main.go.tmpl", ["cmd", "server", "main.go"]),
    ("project/Dockerfile.tmpl", ["Dockerfile"]),
    ("project/docker-compose.yml.tmpl", ["docker-compose.yml"]),
    ("project/Makefile.tmpl", ["Makefile"]),
    ("project/config.toml.tmpl", ["config.toml"]),
    ("project/.env.docker.tmpl", [".env.docker"]),
    ("project/.env.example.tmpl", [".env.example"]),
    ("project/.gitignore.tmpl", [".gitignore"]),
    ("project/README.md.tmpl", ["README.md"]),
    ("internal/application.go.tmpl", ["internal", "application.go"]),
    ("internal/config/config.go.tmpl", ["internal", "config", "config.go"]),
    ("internal/database/database.go.tmpl", ["internal", "database", "database.go"]),
    ("internal/database/sqlc.yaml.tmpl", ["internal", "database", "sqlc.yaml"]),
    ("internal/database/migrations/migration.sql.tmpl",
      ["internal", "database", "migrations", "001_create_initial_schema.sql"]),
    ("internal/database/query/sample.sql.tmpl",
      ["internal", "database", "query", c.SampleAPINameLower ++ ".sql"]),
    ("internal/database/store/.gitignore.tmpl", ["internal", "database", "store", ".gitignore"]),
    ("internal/entity/entity.go.tmpl", ["internal", "entity", c.SampleAPINameLower ++ ".go"]),
    ("internal/dto/request/common.go.tmpl", ["internal", "dto", "request", "common.go"]),
    ("internal/dto/request/sample_request.go.tmpl",
      ["internal", "dto", "request", c.SampleAPINameLower ++ "_request.go"]),
    ("internal/dto/response/common.go.tmpl", ["internal", "dto", "response", "common.go"]),
    ("internal/dto/response/error_response.go.tmpl",
      ["internal", "dto", "response", "error_response.go"]),
    ("internal/dto/response/sample_response.go.tmpl",
      ["internal", "dto", "response", c.SampleAPINameLower ++ "_response.go"]),
    ("internal/repository/interfaces.go.tmpl", ["internal", "repository", "interfaces.go"]),
    ("internal/repository/sample_repository.go.tmpl",
      ["internal", "repository", c.SampleAPINameLower ++ "_repository.go"]),
    ("internal/service/sample/sample.go.tmpl",
      ["internal", "service", c.SampleAPINameLower, c.SampleAPINameLower ++ ".go"]),
    ("internal/service/sample/create_sample_service.go.tmpl",
      ["internal", "service", c.SampleAPINameLower,
        "create_" ++ c.SampleAPINameLower ++ "_service.go"]),
    ("internal/handler/health/health_handler.go.tmpl",
      ["internal", "handler", "health", "health_handler.go"]),
    ("internal/handler/middleware.go.tmpl", ["internal", "handler", "middleware.go"]),
    ("internal/handler/sample/sample_handler.go.tmpl",
      ["internal", "handler", c.SampleAPINameLower, c.SampleAPINameLower ++ "_handler.go"]),
    ("internal/handler/sample/create_sample_handler.go.tmpl",
      ["internal", "handler", c.SampleAPINameLower,
        "create_" ++ c.SampleAPINameLower ++ "_handler.go"]) ]

/-- The slice `files` of `generateFiles`: each entry is a template and
`filepath.Join(projectPath, ...)` of the entry's elements. -/
def files (c : ProjectConfig) (projectPath : String) : List (String × String) :=
  (fileElems c).map fun p => (p.1, Join (projectPath :: p.2))

/-- The destination paths of `generateFiles`, in the order of the slice. -/
def destinations (c : ProjectConfig) (projectPath : String) : List String :=
  (files c projectPath).map Prod.snd

/-! ## `internal/generator`: the world outside the program -/

/-- A call that reaches outside the program, in the order the calls are made. -/
inductive Event where
  | mkdirAll (path : String)
  | create (path : String)
  | write (path : String) (content : String)
  | exec (dir : String) (argv : List String)
  | print (text : String)
  deriving DecidableEq, Repr

/-- The collaborators of the generator over a state `σ` of the outside world.
* `embeddedFS path`: `embeddedFS.ReadFile(path)`, with `some data` when `err == nil`;
* `stat st path`: whether `os.Stat(path)` returns a nil error;
* `mkdirAll st path`: `os.MkdirAll(path, 0755)`, the state after and the error;
* `readFile st path`: `os.ReadFile(path)`, with `some data` when `err == nil`;
* `parse name content`: the error of `template.New(name).Parse(content)`;
* `create st path`: `os.Create(path)`, the state after and the error;
* `execute name content c`: what `tmpl.Execute(file, c)` writes and its error;
* `write st path bytes`: the state once `bytes` are written to the created file;
* `combinedOutput st dir argv`: `cmd.CombinedOutput()` of `exec.Command(argv...)`
  with `cmd.Dir = dir`: the state after, the output and the error. -/
structure Sys (σ : Type) where
  embeddedFS : String → Option String
  stat : σ → String → Bool
  mkdirAll : σ → String → σ × Option String
  readFile : σ → String → Option String
  parse : String → String → Option String
  create : σ → String → σ × Option String
  execute : String → String → ProjectConfig → String × Option String
  write : σ → String → String → σ
  combinedOutput : σ → String → List String → σ × String × Option String

/-- The outside world during a run: its state and the calls made so far. -/
structure Run (σ : Type) where
  st : σ
  log : List Event

/-- A call is recorded at the end of the log. -/
def Run.emit {σ : Type} (r : Run σ) (st : σ) (e : Event) : Run σ :=
  ⟨st, r.log ++ [e]⟩

/-- The external commands run, in order: the `argv` of each. -/
def commandsRun (log : List Event) : List (List String) :=
  log.filterMap fun e =>
    match e with
    | Event.exec _ argv => some argv
    | _ => none

/-! ## `internal/generator/templates.go` -/

/-- The loop of `getTemplateContent` over `diskPaths`: the content of the first
path that `os.ReadFile` reads without error. -/
def readFirst {σ : Type} (sys : Sys σ) (st : σ) : List String → Option String
  | [] => none
  | diskPath :: rest =>
    match sys.readFile st diskPath with
    | some data => some data
    | none => readFirst sys st rest

/-- The function getTemplateContent retrieves template content from the embedded
filesystem, falling back to reading from disk. -/
def getTemplateContent {σ : Type} (sys : Sys σ) (st : σ) (templateName : String) :
    Except String String :=
  match sys.embeddedFS ("templates/" ++ templateName) with
  | some data => Except.ok data
  | none =>
    match readFirst sys st
        ["templates/" ++ templateName, "../../templates/" ++ templateName, templateName] with
    | some data => Except.ok data
    | none => Except.error ("template " ++ templateName ++ " not found in embedded FS or disk")

/-- RenderToFile renders a template to a file. -/
def RenderToFile {σ : Type} (sys : Sys σ) (c : ProjectConfig) (templateName outputPath : String)
    (r : Run σ) : Run σ × Option String :=
  match getTemplateContent sys r.st templateName with
  | Except.error e => (r, some ("failed to get template " ++ templateName ++ ": " ++ e))
  | Except.ok content =>
    match sys.parse templateName content with
    | some e => (r, some ("failed to parse template: " ++ e))
    | none =>
      match sys.create r.st outputPath with
      | (st1, some e) =>
        (r.emit st1 (Event.create outputPath),
          some ("failed to create file " ++ outputPath ++ ": " ++ e))
      | (st1, none) =>
        let r1 := r.emit st1 (Event.create outputPath)
        let res := sys.execute templateName content c
        let r2 := r1.emit (sys.write st1 outputPath res.1) (Event.write outputPath res.1)
        match res.2 with
        | some e => (r2, some ("failed to execute template: " ++ e))
        | none => (r2, none)

/-! ## `internal/generator/project.go` -/

/-- The loop of `createDirectoryStructure` over `dirs`. -/
def mkdirs {σ : Type} (sys : Sys σ) : List String → Run σ → Run σ × Option String
  | [], r => (r, none)
  | dir :: rest, r =>
    match sys.mkdirAll r.st dir with
    | (st1, some e) =>
      (r.emit st1 (Event.mkdirAll dir), some ("failed to create directory " ++ dir ++ ": " ++ e))
    | (st1, none) => mkdirs sys rest (r.emit st1 (Event.mkdirAll dir))

/-- The function createDirectoryStructure creates the project directory structure. -/
def createDirectoryStructure {σ : Type} (sys : Sys σ) (c : ProjectConfig) (projectPath : String)
    (r : Run σ) : Run σ × Option String :=
  mkdirs sys (directories c projectPath) r

/-- The loop of `generateFiles` over `files`. -/
def renderFiles {σ : Type} (sys : Sys σ) (c : ProjectConfig) :
    List (String × String) → Run σ → Run σ × Option String
  | [], r => (r, none)
  | file :: rest, r =>
    match RenderToFile sys c file.1 file.2 r with
    | (r1, some e) => (r1, some ("failed to generate " ++ file.2 ++ ": " ++ e))
    | (r1, none) => renderFiles sys c rest r1

/-- The function generateFiles generates all project files from templates. -/
def generateFiles {σ : Type} (sys : Sys σ) (c : ProjectConfig) (projectPath : String)
    (r : Run σ) : Run σ × Option String :=
  renderFiles sys c (files c projectPath) r

/-- The body shared by `initGoModule`, `downloadDependencies` and `initGit`: run
`argv` in `projectPath`; an error is reported as `what failed: err`, a newline
and the combined output. -/
def runCommand {σ : Type} (sys : Sys σ) (what : String) (argv : List String)
    (projectPath : String) (r : Run σ) : Run σ × Option String :=
  match sys.combinedOutput r.st projectPath argv with
  | (st1, output, some e) =>
    (r.emit st1 (Event.exec projectPath argv), some (what ++ " failed: " ++ e ++ "\n" ++ output))
  | (st1, _, none) => (r.emit st1 (Event.exec projectPath argv), none)

/-- The command of `initGoModule`. -/
def goModInit (c : ProjectConfig) : List String := ["go", "mod", "init", c.ModuleName]

/-- The command of `downloadDependencies`. -/
def goModTidy : List String := ["go", "mod", "tidy"]

/-- The command of `initGit`. -/
def gitInit : List String := ["git", "init"]

/-- The function initGoModule initializes the go module. -/
def initGoModule {σ : Type} (sys : Sys σ) (c : ProjectConfig) (projectPath : String)
    (r : Run σ) : Run σ × Option String :=
  runCommand sys "go mod init" (goModInit c) projectPath r

/-- The function downloadDependencies downloads all project dependencies. -/
def downloadDependencies {σ : Type} (sys : Sys σ) (projectPath : String)
    (r : Run σ) : Run σ × Option String :=
  runCommand sys "go mod tidy" goModTidy projectPath r

/-- The function initGit initializes a git repository. -/
def initGit {σ : Type} (sys : Sys σ) (projectPath : String)
    (r : Run σ) : Run σ × Option String :=
  runCommand sys "git init" gitInit projectPath r

/-- A line of output: `fmt.Println` and `fmt.Printf` write to standard output. -/
def Run.print {σ : Type} (r : Run σ) (text : String) : Run σ :=
  r.emit r.st (Event.print text)

/-- The line printed before the directory step. -/
def msgDirs : String := "📁 Creating directory structure...\n"

/-- The line printed before the file step. -/
def msgFiles : String := "📝 Generating project files...\n"

/-- The line printed before the module step. -/
def msgModule : String := "🔧 Initializing go module...\n"

/-- The line printed before the git step. -/
def msgGit : String := "🔀 Initializing git repository...\n"

/-- The line printed before the dependency step. -/
def msgDeps : String := "📦 Downloading dependencies...\n"

/-- The git step of `Generate`: skipped when `SkipGit` is set; a failure is a warning. -/
def gitStep {σ : Type} (sys : Sys σ) (c : ProjectConfig) (projectPath : String)
    (r : Run σ) : Run σ :=
  if !c.SkipGit then
    match initGit sys projectPath (r.print msgGit) with
    | (r1, some e) => r1.print ("⚠️  Warning: failed to initialize git: " ++ e ++ "\n")
    | (r1, none) => r1
  else r

/-- The dependency step of `Generate`: a failure is a warning. -/
def dependencyStep {σ : Type} (sys : Sys σ) (projectPath : String) (r : Run σ) : Run σ :=
  match downloadDependencies sys projectPath (r.print msgDeps) with
  | (r1, some e) =>
    (r1.print ("⚠️  Warning: failed to download dependencies: " ++ e ++ "\n")).print
      "   Run 'go mod tidy' manually in the project directory\n"
  | (r1, none) => r1

/-- Generate creates the entire project structure, from the state `st` of the
outside world and an empty log. -/
def Generate {σ : Type} (sys : Sys σ) (c : ProjectConfig) (st : σ) : Run σ × Option String :=
  let projectPath := projectPathOf c
  let r0 : Run σ := ⟨st, []⟩
  if sys.stat st projectPath then
    (r0, some ("directory " ++ projectPath ++ " already exists"))
  else
    match createDirectoryStructure sys c projectPath (r0.print msgDirs) with
    | (r1, some e) => (r1, some ("failed to create directory structure: " ++ e))
    | (r1, none) =>
      match generateFiles sys c projectPath (r1.print msgFiles) with
      | (r2, some e) => (r2, some ("failed to generate files: " ++ e))
      | (r2, none) =>
        match initGoModule sys c projectPath (r2.print msgModule) with
        | (r3, some e) => (r3, some ("failed to initialize go module: " ++ e))
        | (r3, none) => (dependencyStep sys projectPath (gitStep sys c projectPath r3), none)

/-! ## The steps of `Generate`, one by one -/

/-- The directory step of `Generate` from the state `st`: what
`createDirectoryStructure` returns there. -/
def dirStep {σ : Type} (sys : Sys σ) (c : ProjectConfig) (st : σ) : Run σ × Option String :=
  createDirectoryStructure sys c (projectPathOf c) ((⟨st, []⟩ : Run σ).print msgDirs)

/-- The file step of `Generate`, run where the directory step ended: what
`generateFiles` returns there. -/
def fileStep {σ : Type} (sys : Sys σ) (c : ProjectConfig) (st : σ) : Run σ × Option String :=
  generateFiles sys c (projectPathOf c) ((dirStep sys c st).1.print msgFiles)

/-- The module step of `Generate`, run where the file step ended: what
`initGoModule` returns there. -/
def moduleStep {σ : Type} (sys : Sys σ) (c : ProjectConfig) (st : σ) : Run σ × Option String :=
  initGoModule sys c (projectPathOf c) ((fileStep sys c st).1.print msgModule)

/-- The paths handed to `os.Create`, in order. -/
def createdPaths (log : List Event) : List String :=
  log.filterMap fun e =>
    match e with
    | Event.create path => some path
    | _ => none

/-! ## A small world for the examples -/

/-- A state of the outside world: the files with their content, and the directories. -/
structure World where
  files : List (String × String)
  dirs : List String
  deriving DecidableEq, Repr

/-- A system over `World`: the embedded store holds every template but those of
`missing`; every directory and file operation succeeds; parsing and execution
succeed and write the template as it is; the commands of `failing` fail. -/
def demoSys (missing : List String) (failing : List (List String)) : Sys World where
  embeddedFS := fun path => if path ∈ missing then none else some ("template " ++ path)
  stat := fun w path => decide (path ∈ w.dirs) || (w.files.lookup path).isSome
  mkdirAll := fun w path => (⟨w.files, path :: w.dirs⟩, none)
  readFile := fun w path => w.files.lookup path
  parse := fun _ _ => none
  create := fun w path => (⟨(path, "") :: w.files, w.dirs⟩, none)
  execute := fun _ content _ => (content, none)
  write := fun w path bytes => ⟨(path, bytes) :: w.files, w.dirs⟩
  combinedOutput := fun w _ argv =>
    if argv ∈ failing then (w, "command output", some "exit status 1") else (w, "", none)

/-- The empty world. -/
def emptyWorld : World := ⟨[], []⟩

/-! ## Specification-side vocabulary -/

/-- The text `s` contains the text `t`. -/
def Contains (s t : String) : Prop := ∃ a b : String, s = a ++ t ++ b

/-- The name pattern in words: at least one rune, and every rune is an ASCII
letter, an ASCII digit, an underscore or a hyphen. -/
def NamePattern (s : String) : Prop :=
  s ≠ "" ∧ ∀ r ∈ s.data, r.isAlpha = true ∨ r.isDigit = true ∨ r = '_' ∨ r = '-'

/-- The word `w` ends in `suffix`. -/
def EndsIn (w suffix : String) : Prop := ∃ stem : String, w = stem ++ suffix

/-- The pluralization rule in the words of the specification, relating a word
`w` to its plural `p`: a trailing `y` is replaced by `ies`; otherwise a word
ending in `s`, `x`, `ch` or `sh` gets `es`; otherwise the word gets `s`. -/
def PluralRule (w p : String) : Prop :=
  (∃ stem : String, w = stem ++ "y" ∧ p = stem ++ "ies") ∨
  (¬ EndsIn w "y" ∧ (EndsIn w "s" ∨ EndsIn w "x" ∨ EndsIn w "ch" ∨ EndsIn w "sh") ∧
    p = w ++ "es") ∨
  (¬ EndsIn w "y" ∧ ¬ EndsIn w "s" ∧ ¬ EndsIn w "x" ∧ ¬ EndsIn w "ch" ∧ ¬ EndsIn w "sh" ∧
    p = w ++ "s")

/-- What idempotence of `strings.Title` asks of the Unicode tables: above ASCII,
the title case of a rune is a rune that title-casing leaves alone, and it is a
word separator exactly when the rune is. -/
def TitleStable (U : UnicodeTables) : Prop :=
  ∀ r : Char, isASCII r = false →
    unicodeToTitle U (U.toTitle r) = U.toTitle r ∧
      isSeparator U (U.toTitle r) = isSeparator U r

/-- A single path segment: not empty, without a path separator, and neither `.`
nor `..`. -/
structure Plain (e : String) : Prop where
  nonempty : e.data ≠ []
  noSep : '/' ∉ e.data
  notDot : e.data ≠ ['.']
  notDotDot : e.data ≠ ['.', '.']

/-- A list of runes that is a single path segment. -/
def PlainData (e : List Char) : Prop :=
  e ≠ [] ∧ '/' ∉ e ∧ e ≠ ['.'] ∧ e ≠ ['.', '.']

/-- What `filepath.Join(projectPath, ...)` puts before the joined elements that
follow `projectPath`, when these are single path segments. -/
def joinPrefix (projectPath : String) : List Char :=
  if projectPath = "" then []
  else
    let rooted : Bool := decide (projectPath.data.head? = some '/')
    let b := (splitSep projectPath.data).foldl (cleanStep rooted) ⟨[], 0⟩
    (if rooted then ['/'] else []) ++ (if b.out = [] then [] else joinWith ['/'] b.out ++ ['/'])

/-- The elements that `filepath.Clean` keeps of a relative path with the
elements `segs`. -/
def normOf (segs : List (List Char)) : List (List Char) :=
  (segs.foldl (cleanStep false) ⟨[], 0⟩).out

/-- The elements `segs` clean up within themselves: the first one is not empty,
none holds a separator, no `..` climbs above the first element, and what is
kept is not empty. -/
def Reduces (segs : List (List Char)) : Prop :=
  segs.headD [] ≠ [] ∧ (∀ e ∈ segs, '/' ∉ e) ∧
    (segs.foldl (cleanStep false) ⟨[], 0⟩).dotdot = 0 ∧
    (∀ e ∈ normOf segs, '/' ∉ e) ∧ normOf segs ≠ [] ∧ joinWith ['/'] (normOf segs) ≠ []

instance : DecidablePred Reduces := fun segs => by
  unfold Reduces
  infer_instance

/-- The directory `d` is a proper ancestor of the path `m`: it is not `m` and
it is reached from `m` by taking the parent directory some number of times. -/
def ProperAncestor (d m : String) : Prop :=
  d ≠ m ∧ ∃ k : Nat, d = Dir^[k] m

/-- The path elements that follow `projectPath` in the entries of the slice
`dirs` of `createDirectoryStructure` after the first, which is `projectPath`. -/
def dirElems (c : ProjectConfig) : List (List String) :=
  [ ["cmd", "server"],
    ["internal", "config"],
    ["internal", "database", "migrations"],
    ["internal", "database", "query"],
    ["internal", "database", "store"],
    ["internal", "entity"],
    ["internal", "dto", "request"],
    ["internal", "dto", "response"],
    ["internal", "repository"],
    ["internal", "service", c.SampleAPINameLower],
    ["internal", "handler", "health"],
    ["internal", "handler", c.SampleAPINameLower] ]

/-- Whether `path` starts at the root. -/
def isRooted (path : String) : Bool :=
  decide (path.data.head? = some '/')

/-- The buffer of `filepath.Clean` once the elements of `path` are read. -/
def cleanBuf (path : String) : CleanBuf :=
  (splitSep path.data).foldl (cleanStep (isRooted path)) ⟨[], 0⟩

/-- The text of a buffer of `filepath.Clean`: the leading separator of a rooted
path, then the elements with separators between them. -/
def render (rooted : Bool) (out : List (List Char)) : List Char :=
  (if rooted then ['/'] else []) ++ joinWith ['/'] out

/-- The shape of a buffer of `filepath.Clean`: a run of `..`, as long as
`dotdot` says and empty in a rooted path, then single path segments. -/
def BufOK (rooted : Bool) (b : CleanBuf) : Prop :=
  ∃ reals : List (List Char),
    b.out = List.replicate b.dotdot ['.', '.'] ++ reals ∧ (rooted = true → b.dotdot = 0) ∧
      ∀ e ∈ reals, PlainData e

/-! ## Configurations of the examples -/

/-- The defaults for the project `myapp`, after `Process`. -/
def defaultConfig : ProjectConfig :=
  Process latin1Tables (NewProjectConfig "myapp")

/-- The configuration of the example of C4: the defaults for project `shop` with
the sample entity `category`. -/
def categoryConfig : ProjectConfig :=
  { NewProjectConfig "shop" with SampleAPIName := "category" }

/-- The configuration of the counterexample of C5: the defaults for the project
`myapp` with the sample entity `Error`, after `Process`. -/
def errorConfig : ProjectConfig :=
  Process latin1Tables { NewProjectConfig "myapp" with SampleAPIName := "Error" }

/-- A second colliding configuration: the sample entity `Health`. -/
def healthConfig : ProjectConfig :=
  Process latin1Tables { NewProjectConfig "myapp" with SampleAPIName := "Health" }

/-- A colliding configuration whose sample entity holds path separators. -/
def traversalConfig : ProjectConfig :=
  Process latin1Tables { NewProjectConfig "myapp" with SampleAPIName := "../handler/middleware" }

/-- A configuration whose sample entity is named `lower` in lower case. -/
def configWithLower (lower : String) : ProjectConfig :=
  { NewProjectConfig "app" with SampleAPINameLower := lower }

/-! ## Lemmas on strings -/

theorem string_eq_empty_iff (s : String) : s = "" ↔ s.data = [] := by
  constructor
  · intro h; rw [h]
  · intro h; exact String.ext h

theorem inClass_nameClass (r : Char) :
    inClass nameClass r = true ↔
      (r.isAlpha = true ∨ r.isDigit = true ∨ r = '_' ∨ r = '-') := by
  have h1 : r = '_' ↔ r.toNat = 95 := by
    constructor
    · intro h; rw [h]; rfl
    · intro h; rw [← Char.ofNat_toNat r, h]
  have h2 : r = '-' ↔ r.toNat = 45 := by
    constructor
    · intro h; rw [h]; rfl
    · intro h; rw [← Char.ofNat_toNat r, h]
  rw [h1, h2]
  simp only [inClass, nameClass, List.any_cons, List.any_nil, Char.isAlpha, Char.isUpper,
    Char.isLower, Char.isDigit, Bool.or_eq_true, Bool.and_eq_true, decide_eq_true_eq,
    Bool.or_false, ge_iff_le, UInt32.le_def, Char.toNat]
  have e1 : ('a' : Char).val.toNat = 97 := rfl
  have e2 : ('z' : Char).val.toNat = 122 := rfl
  have e3 : ('A' : Char).val.toNat = 65 := rfl
  have e4 : ('Z' : Char).val.toNat = 90 := rfl
  have e5 : ('0' : Char).val.toNat = 48 := rfl
  have e6 : ('9' : Char).val.toNat = 57 := rfl
  have e7 : ('_' : Char).val.toNat = 95 := rfl
  have e8 : ('-' : Char).val.toNat = 45 := rfl
  simp only [e1, e2, e3, e4, e5, e6, e7, e8, BitVec.le_def]
  have t1 : (UInt32.toBitVec 65).toNat = 65 := rfl
  have t2 : (UInt32.toBitVec 90).toNat = 90 := rfl
  have t3 : (UInt32.toBitVec 97).toNat = 97 := rfl
  have t4 : (UInt32.toBitVec 122).toNat = 122 := rfl
  have t5 : (UInt32.toBitVec 48).toNat = 48 := rfl
  have t6 : (UInt32.toBitVec 57).toNat = 57 := rfl
  have t7 : r.val.toNat = r.val.toBitVec.toNat := rfl
  rw [t1, t2, t3, t4, t5, t6, t7]
  omega

theorem matchClassPlus_iff (ranges : List (Char × Char)) (l : List Char) :
    matchClassPlus ranges l = true ↔ l ≠ [] ∧ ∀ r ∈ l, inClass ranges r = true := by
  induction l with
  | nil => simp [matchClassPlus]
  | cons a rest ih =>
    cases rest with
    | nil => simp [matchClassPlus]
    | cons b rest2 =>
      simp only [matchClassPlus, List.isEmpty_cons, Bool.false_or, Bool.and_eq_true] at ih ⊢
      rw [ih]
      simp

theorem matchProjectName_iff (s : String) : matchProjectName s = true ↔ NamePattern s := by
  unfold matchProjectName NamePattern
  rw [matchClassPlus_iff, ne_eq, ne_eq, string_eq_empty_iff]
  constructor
  · rintro ⟨h1, h2⟩
    exact ⟨h1, fun r hr => (inClass_nameClass r).1 (h2 r hr)⟩
  · rintro ⟨h1, h2⟩
    exact ⟨h1, fun r hr => (inClass_nameClass r).2 (h2 r hr)⟩

theorem errors_distinct :
    errProjectNameEmpty ≠ errProjectNameChars ∧ errProjectNameEmpty ≠ errModuleNameEmpty ∧
    errProjectNameEmpty ≠ errSampleAPINameEmpty ∧ errProjectNameChars ≠ errModuleNameEmpty ∧
    errProjectNameChars ≠ errSampleAPINameEmpty ∧ errModuleNameEmpty ≠ errSampleAPINameEmpty := by
  decide

/-! ## C1: the order of the checks of `Validate` -/

theorem Validate_cases (c : ProjectConfig) :
    (Validate c = some errProjectNameEmpty ↔ c.ProjectName = "") ∧
    (Validate c = some errProjectNameChars ↔
      c.ProjectName ≠ "" ∧ ¬ NamePattern c.ProjectName) ∧
    (Validate c = some errModuleNameEmpty ↔
      c.ProjectName ≠ "" ∧ NamePattern c.ProjectName ∧ c.ModuleName = "") ∧
    (Validate c = some errSampleAPINameEmpty ↔
      c.ProjectName ≠ "" ∧ NamePattern c.ProjectName ∧ c.ModuleName ≠ "" ∧
        c.SampleAPIName = "") ∧
    (Validate c = none ↔
      c.ProjectName ≠ "" ∧ NamePattern c.ProjectName ∧ c.ModuleName ≠ "" ∧
        c.SampleAPIName ≠ "") ∧
    (∀ e, Validate c = some e →
      e = errProjectNameEmpty ∨ e = errProjectNameChars ∨ e = errModuleNameEmpty ∨
        e = errSampleAPINameEmpty) := by
  obtain ⟨d1, d2, d3, d4, d5, d6⟩ := errors_distinct
  have hm := matchProjectName_iff c.ProjectName
  refine ⟨?_, ?_, ?_, ?_, ?_, ?_⟩ <;>
  · unfold Validate
    by_cases h1 : c.ProjectName = "" <;>
    by_cases h2 : matchProjectName c.ProjectName = true <;>
    by_cases h3 : c.ModuleName = "" <;>
    by_cases h4 : c.SampleAPIName = "" <;>
    simp_all [Ne.symm d1, Ne.symm d2, Ne.symm d3, Ne.symm d4, Ne.symm d5, Ne.symm d6]

/-- C1: `Validate` returns the error of the first failing check, in the order
project name non-empty, project name matches the pattern, module name non-empty,
sample API name non-empty, and returns nil exactly when all four hold; a project
name with a blank and an empty module name give the project-name-characters
error. -/
theorem Validate_first_failing_check (c : ProjectConfig) :
    (Validate c = some errProjectNameEmpty ↔ c.ProjectName = "") ∧
    (Validate c = some errProjectNameChars ↔
      c.ProjectName ≠ "" ∧ ¬ NamePattern c.ProjectName) ∧
    (Validate c = some errModuleNameEmpty ↔
      c.ProjectName ≠ "" ∧ NamePattern c.ProjectName ∧ c.ModuleName = "") ∧
    (Validate c = some errSampleAPINameEmpty ↔
      c.ProjectName ≠ "" ∧ NamePattern c.ProjectName ∧ c.ModuleName ≠ "" ∧
        c.SampleAPIName = "") ∧
    (Validate c = none ↔
      c.ProjectName ≠ "" ∧ NamePattern c.ProjectName ∧ c.ModuleName ≠ "" ∧
        c.SampleAPIName ≠ "") ∧
    (∀ e, Validate c = some e →
      e = errProjectNameEmpty ∨ e = errProjectNameChars ∨ e = errModuleNameEmpty ∨
        e = errSampleAPINameEmpty) ∧
    Validate { NewProjectConfig "my app" with ModuleName := "" } = some errProjectNameChars := by
  obtain ⟨h1, h2, h3, h4, h5, h6⟩ := Validate_cases c
  exact ⟨h1, h2, h3, h4, h5, h6, by decide⟩

/-! ## C2: a fresh configuration validates exactly when its name fits the pattern -/

theorem Title_User (U : UnicodeTables) : Title U "User" = "User" := by rfl

/-- C2: after `NewProjectConfig(name)` and `Process`, `Validate` returns nil when
`name` fits the name pattern, and otherwise one of the two project-name errors:
the empty-name error for the empty name and the characters error for every other
name off the pattern, such as one with a blank, a slash or a trailing newline. -/
theorem Validate_Process_NewProjectConfig (U : UnicodeTables) (name : String) :
    (Validate (Process U (NewProjectConfig name)) = none ↔ NamePattern name) ∧
    (Validate (Process U (NewProjectConfig name)) = some errProjectNameEmpty ↔ name = "") ∧
    (Validate (Process U (NewProjectConfig name)) = some errProjectNameChars ↔
      name ≠ "" ∧ ¬ NamePattern name) ∧
    Validate (Process U (NewProjectConfig "my app")) = some errProjectNameChars ∧
    Validate (Process U (NewProjectConfig "my/app")) = some errProjectNameChars ∧
    Validate (Process U (NewProjectConfig "myapp\n")) = some errProjectNameChars ∧
    Validate (Process U (NewProjectConfig "my-app_2")) = none := by
  have hname : (Process U (NewProjectConfig name)).ProjectName = name := rfl
  have hmod : (Process U (NewProjectConfig name)).ModuleName ≠ "" := by
    show "github.com/username/" ++ name ≠ ""
    intro h
    have hl := congrArg String.length h
    simp at hl
    exact absurd hl.1 (by decide)
  have hapi : (Process U (NewProjectConfig name)).SampleAPIName ≠ "" := by
    show Title U "User" ≠ ""
    rw [Title_User]; decide
  have h := Validate_cases (Process U (NewProjectConfig name))
  rw [hname] at h
  refine ⟨?_, h.1, h.2.1, by rfl, by rfl, by rfl, by rfl⟩
  rw [h.2.2.2.2.1]
  constructor
  · intro hh; exact hh.2.1
  · intro hh; exact ⟨hh.1, hh, hmod, hapi⟩

/-! ## C3: what `Process` derives -/

theorem HasSuffix_iff (s suffix : String) : HasSuffix s suffix = true ↔ EndsIn s suffix := by
  unfold HasSuffix EndsIn
  simp only [Bool.and_eq_true, decide_eq_true_eq]
  constructor
  · rintro ⟨_, h2⟩
    refine ⟨⟨s.data.take (s.data.length - suffix.data.length)⟩, ?_⟩
    apply String.ext
    have h := List.take_append_drop (s.data.length - suffix.data.length) s.data
    rw [h2] at h
    rw [String.data_append]
    exact h.symm
  · rintro ⟨stem, rfl⟩
    rw [String.data_append]
    refine ⟨by simp, ?_⟩
    simp

theorem TrimSuffix_append (stem suffix : String) : TrimSuffix (stem ++ suffix) suffix = stem := by
  have h : HasSuffix (stem ++ suffix) suffix = true := (HasSuffix_iff _ _).2 ⟨stem, rfl⟩
  unfold TrimSuffix
  rw [if_pos h]
  apply String.ext
  simp

theorem pluralize_rule (w : String) : PluralRule w (pluralize w) := by
  unfold pluralize PluralRule
  by_cases hy : HasSuffix w "y" = true
  · rw [if_pos hy]
    obtain ⟨stem, rfl⟩ := (HasSuffix_iff _ _).1 hy
    exact Or.inl ⟨stem, rfl, by rw [TrimSuffix_append]⟩
  · rw [if_neg hy]
    have hy2 : ¬ EndsIn w "y" := fun h => hy ((HasSuffix_iff _ _).2 h)
    by_cases hs : (HasSuffix w "s" || HasSuffix w "x" || HasSuffix w "ch" || HasSuffix w "sh") = true
    · rw [if_pos hs]
      simp only [Bool.or_eq_true, HasSuffix_iff] at hs
      refine Or.inr (Or.inl ⟨hy2, ?_, rfl⟩)
      tauto
    · rw [if_neg hs]
      simp only [Bool.or_eq_true, HasSuffix_iff] at hs
      refine Or.inr (Or.inr ⟨hy2, ?_, ?_, ?_, ?_, rfl⟩) <;> tauto

/-- C3: after `Process`, `SampleAPIName` is the title-cased former value,
`SampleAPINameLower` is the lower-case of the new `SampleAPIName`, and
`SampleTableName` is its plural under the rule: a trailing `y` becomes `ies`,
else `es` is appended after `s`, `x`, `ch` or `sh`, else `s` is appended; so
box, dish, bus, city and user give boxes, dishes, buses, cities and users. -/
theorem Process_derives_sample_names (U : UnicodeTables) (c : ProjectConfig) :
    (Process U c).SampleAPIName = Title U c.SampleAPIName ∧
    (Process U c).SampleAPINameLower = ToLower U (Process U c).SampleAPIName ∧
    (Process U c).SampleTableName = pluralize (Process U c).SampleAPINameLower ∧
    PluralRule (Process U c).SampleAPINameLower (Process U c).SampleTableName ∧
    pluralize "box" = "boxes" ∧ pluralize "dish" = "dishes" ∧ pluralize "bus" = "buses" ∧
    pluralize "city" = "cities" ∧ pluralize "user" = "users" ∧
    (Process U { c with SampleAPIName := "box" }).SampleTableName = "boxes" ∧
    (Process U { c with SampleAPIName := "dish" }).SampleTableName = "dishes" ∧
    (Process U { c with SampleAPIName := "bus" }).SampleTableName = "buses" ∧
    (Process U { c with SampleAPIName := "city" }).SampleTableName = "cities" ∧
    (Process U { c with SampleAPIName := "user" }).SampleTableName = "users" := by
  refine ⟨rfl, rfl, rfl, pluralize_rule _, by decide, by decide, by decide, by decide,
    by decide, by rfl, by rfl, by rfl, by rfl, by rfl⟩

/-! ## C4: `Process` is idempotent -/

theorem ascii_title_facts :
    ∀ n, n < 128 →
      (isASCII (unicodeToTitle latin1Tables (Char.ofNat n)) = true ∧
        unicodeToTitle latin1Tables (unicodeToTitle latin1Tables (Char.ofNat n)) =
          unicodeToTitle latin1Tables (Char.ofNat n) ∧
        isSeparator latin1Tables (unicodeToTitle latin1Tables (Char.ofNat n)) =
          isSeparator latin1Tables (Char.ofNat n)) := by
  decide

theorem unicodeToTitle_ascii (U V : UnicodeTables) (r : Char) (h : isASCII r = true) :
    unicodeToTitle U r = unicodeToTitle V r := by
  simp [unicodeToTitle, h]

theorem isSeparator_ascii (U V : UnicodeTables) (r : Char) (h : isASCII r = true) :
    isSeparator U r = isSeparator V r := by
  simp [isSeparator, h]

theorem unicodeToTitle_stable (U : UnicodeTables) (hU : TitleStable U) (r : Char) :
    unicodeToTitle U (unicodeToTitle U r) = unicodeToTitle U r ∧
      isSeparator U (unicodeToTitle U r) = isSeparator U r := by
  by_cases h : isASCII r = true
  · have hn : r.toNat < 128 := by
      have : r.toNat ≤ 0x7F := by simpa [isASCII] using h
      omega
    obtain ⟨f1, f2, f3⟩ := ascii_title_facts r.toNat hn
    rw [Char.ofNat_toNat] at f1 f2 f3
    rw [unicodeToTitle_ascii U latin1Tables r h]
    rw [unicodeToTitle_ascii U latin1Tables _ f1, isSeparator_ascii U latin1Tables _ f1,
      isSeparator_ascii U latin1Tables r h]
    exact ⟨f2, f3⟩
  · have h2 : isASCII r = false := by simpa using h
    have e : unicodeToTitle U r = U.toTitle r := by simp [unicodeToTitle, h2]
    rw [e]
    exact hU r h2

theorem titleRunes_stable (U : UnicodeTables) (hU : TitleStable U) (l : List Char) :
    ∀ p q : Char, isSeparator U q = isSeparator U p →
      titleRunes U q (titleRunes U p l) = titleRunes U p l := by
  induction l with
  | nil => intro p q _; rfl
  | cons r rs ih =>
    intro p q hpq
    simp only [titleRunes]
    rw [hpq]
    by_cases hp : isSeparator U p = true
    · simp only [hp, if_true]
      rw [(unicodeToTitle_stable U hU r).1, ih r _ (unicodeToTitle_stable U hU r).2]
    · have hp2 : isSeparator U p = false := by simpa using hp
      simp only [hp2, Bool.false_eq_true, if_false]
      rw [ih r r rfl]

theorem Title_idempotent (U : UnicodeTables) (hU : TitleStable U) (s : String) :
    Title U (Title U s) = Title U s := by
  unfold Title
  apply String.ext
  exact titleRunes_stable U hU s.data ' ' ' ' rfl

set_option maxRecDepth 100000 in
theorem latin1_title_facts :
    ∀ n, n < 256 → 128 ≤ n →
      (unicodeToTitle latin1Tables (latin1Tables.toTitle (Char.ofNat n)) =
          latin1Tables.toTitle (Char.ofNat n) ∧
        isSeparator latin1Tables (latin1Tables.toTitle (Char.ofNat n)) =
          isSeparator latin1Tables (Char.ofNat n)) := by
  decide

theorem latin1Tables_stable : TitleStable latin1Tables := by
  intro r h
  have hn : 128 ≤ r.toNat := by
    have : ¬ r.toNat ≤ 0x7F := by simpa [isASCII] using h
    omega
  by_cases hlt : r.toNat < 256
  · have f := latin1_title_facts r.toNat hlt hn
    rw [Char.ofNat_toNat] at f
    exact f
  · have e : latin1Tables.toTitle r = r := by
      have : ¬ (0xE0 ≤ r.toNat ∧ r.toNat ≤ 0xFE ∧ r.toNat ≠ 0xF7) := by omega
      simp only [latin1Tables, this, if_false]
    rw [e]
    refine ⟨?_, rfl⟩
    simp [unicodeToTitle, h, e]

/-- C4: `Process` is idempotent: two calls leave the configuration that one call
leaves, one call changes at most the three sample-entity names, and for the
sample entity `category` they are `Category`, `category` and `categories`. The
Unicode tables are assumed stable under title-casing (`TitleStable`). -/
theorem Process_idempotent (U : UnicodeTables) (hU : TitleStable U) (c : ProjectConfig) :
    Process U (Process U c) = Process U c ∧
    Process U c =
      { c with
        SampleAPIName := (Process U c).SampleAPIName
        SampleAPINameLower := (Process U c).SampleAPINameLower
        SampleTableName := (Process U c).SampleTableName } ∧
    (Process U categoryConfig).SampleAPIName = "Category" ∧
    (Process U categoryConfig).SampleAPINameLower = "category" ∧
    (Process U categoryConfig).SampleTableName = "categories" ∧
    (Process U (Process U categoryConfig)).SampleAPIName = "Category" ∧
    (Process U (Process U categoryConfig)).SampleAPINameLower = "category" ∧
    (Process U (Process U categoryConfig)).SampleTableName = "categories" := by
  refine ⟨?_, rfl, by rfl, by rfl, by rfl, by rfl, by rfl, by rfl⟩
  unfold Process
  simp only [Title_idempotent U hU]

/-- Witness for C4 on the Latin-1 fragment of the tables, with a sample entity
outside ASCII. -/
theorem Process_idempotent_witness :
    TitleStable latin1Tables ∧
    Process latin1Tables (Process latin1Tables { categoryConfig with SampleAPIName := "état civil" }) =
      Process latin1Tables { categoryConfig with SampleAPIName := "état civil" } ∧
    (Process latin1Tables { categoryConfig with SampleAPIName := "état civil" }).SampleAPIName =
      "État Civil" :=
  ⟨latin1Tables_stable,
    (Process_idempotent latin1Tables latin1Tables_stable
      { categoryConfig with SampleAPIName := "état civil" }).1, by decide⟩

/-! ## Lemmas on `filepath.Join` -/

theorem splitSep_ne_nil (l : List Char) : splitSep l ≠ [] := by
  cases l with
  | nil => simp [splitSep]
  | cons ch rest =>
    unfold splitSep
    by_cases h : ch = '/'
    · simp [h]
    · rw [if_neg h]
      cases splitSep rest <;> simp

theorem splitSep_sep (rest : List Char) : splitSep ('/' :: rest) = [] :: splitSep rest := by
  simp [splitSep]

theorem splitSep_cons (ch : Char) (rest e : List Char) (es : List (List Char)) (h : ch ≠ '/')
    (hs : splitSep rest = e :: es) : splitSep (ch :: rest) = (ch :: e) :: es := by
  rw [splitSep, if_neg h, hs]

theorem splitSep_free (e : List Char) (h : '/' ∉ e) : splitSep e = [e] := by
  induction e with
  | nil => rfl
  | cons ch rest ih =>
    have h1 : ch ≠ '/' := fun hc => h (by simp [hc])
    have h2 : '/' ∉ rest := fun hc => h (List.mem_cons_of_mem _ hc)
    exact splitSep_cons ch rest rest [] h1 (ih h2)

theorem splitSep_append (a b : List Char) :
    splitSep (a ++ '/' :: b) = splitSep a ++ splitSep b := by
  induction a with
  | nil => simp [splitSep_sep, splitSep]
  | cons ch rest ih =>
    rw [List.cons_append]
    by_cases h : ch = '/'
    · subst h
      rw [splitSep_sep, splitSep_sep, ih]
      rfl
    · have hne := splitSep_ne_nil rest
      cases hs : splitSep rest with
      | nil => exact absurd hs hne
      | cons e es =>
        rw [splitSep_cons ch rest e es h hs,
          splitSep_cons ch (rest ++ '/' :: b) e (es ++ splitSep b) h (by rw [ih, hs]; rfl)]
        rfl

theorem splitSep_joinWith (l : List (List Char)) (hne : l ≠ [])
    (hfree : ∀ e ∈ l, '/' ∉ e) : splitSep (joinWith ['/'] l) = l := by
  induction l with
  | nil => exact absurd rfl hne
  | cons e rest ih =>
    cases rest with
    | nil => exact splitSep_free e (hfree e (by simp))
    | cons e2 rest2 =>
      have h1 : joinWith ['/'] (e :: e2 :: rest2) = e ++ '/' :: joinWith ['/'] (e2 :: rest2) := by
        simp [joinWith]
      rw [h1, splitSep_append, splitSep_free e (hfree e (by simp)),
        ih (by simp) (fun x hx => hfree x (List.mem_cons_of_mem _ hx))]
      rfl

theorem joinWith_injective (l1 l2 : List (List Char)) (h1 : l1 ≠ []) (h2 : l2 ≠ [])
    (f1 : ∀ e ∈ l1, '/' ∉ e) (f2 : ∀ e ∈ l2, '/' ∉ e)
    (h : joinWith ['/'] l1 = joinWith ['/'] l2) : l1 = l2 := by
  rw [← splitSep_joinWith l1 h1 f1, ← splitSep_joinWith l2 h2 f2, h]

theorem joinWith_append (a b : List (List Char)) (hb : b ≠ []) :
    joinWith ['/'] (a ++ b) =
      (if a = [] then [] else joinWith ['/'] a ++ ['/']) ++ joinWith ['/'] b := by
  induction a with
  | nil => simp
  | cons e rest ih =>
    cases rest with
    | nil =>
      cases b with
      | nil => exact absurd rfl hb
      | cons x xs => simp [joinWith]
    | cons e2 rest2 =>
      have h1 : joinWith ['/'] (e :: e2 :: rest2 ++ b) =
          e ++ ['/'] ++ joinWith ['/'] (e2 :: rest2 ++ b) := by
        simp [joinWith]
      have h2 : joinWith ['/'] (e :: e2 :: rest2) = e ++ ['/'] ++ joinWith ['/'] (e2 :: rest2) := by
        simp [joinWith]
      rw [h1, ih, h2]
      simp

theorem cleanStep_plain (rooted : Bool) (b : CleanBuf) (e : List Char) (h : PlainData e) :
    cleanStep rooted b e = ⟨b.out ++ [e], b.dotdot⟩ := by
  unfold cleanStep
  rw [if_neg h.1, if_neg h.2.2.1, if_neg h.2.2.2]

theorem foldl_cleanStep_plain (rooted : Bool) (segs : List (List Char))
    (h : ∀ e ∈ segs, PlainData e) (b : CleanBuf) :
    segs.foldl (cleanStep rooted) b = ⟨b.out ++ segs, b.dotdot⟩ := by
  induction segs generalizing b with
  | nil => simp
  | cons e rest ih =>
    rw [List.foldl_cons, cleanStep_plain rooted b e (h e (by simp)),
      ih (fun x hx => h x (List.mem_cons_of_mem _ hx))]
    simp

theorem joinWith_plain_ne_nil (segs : List (List Char)) (hne : segs ≠ [])
    (h : ∀ e ∈ segs, PlainData e) : joinWith ['/'] segs ≠ [] := by
  cases segs with
  | nil => exact absurd rfl hne
  | cons e rest =>
    have he := (h e (by simp)).1
    cases rest with
    | nil => simpa [joinWith] using he
    | cons e2 rest2 => simp [joinWith, he]

theorem joinWith_plain_head (segs : List (List Char)) (hne : segs ≠ [])
    (h : ∀ e ∈ segs, PlainData e) : (joinWith ['/'] segs).head? ≠ some '/' := by
  cases segs with
  | nil => exact absurd rfl hne
  | cons e rest =>
    obtain ⟨he, hf, _, _⟩ := h e (by simp)
    cases e with
    | nil => exact absurd rfl he
    | cons ch e2 =>
      have hc : ch ≠ '/' := fun hc => hf (by simp [hc])
      cases rest with
      | nil => simpa [joinWith] using hc
      | cons e3 rest2 => simpa [joinWith] using hc

theorem Join_plain_data (projectPath : String) (segs : List String) (hne : segs ≠ [])
    (h : ∀ e ∈ segs, Plain e) :
    (Join (projectPath :: segs)).data =
      joinPrefix projectPath ++ joinWith ['/'] (segs.map String.data) := by
  have hne2 : segs.map String.data ≠ [] := by simpa using hne
  have hp : ∀ e ∈ segs.map String.data, PlainData e := by
    intro e he
    obtain ⟨x, hx, rfl⟩ := List.mem_map.1 he
    exact ⟨(h x hx).nonempty, (h x hx).noSep, (h x hx).notDot, (h x hx).notDotDot⟩
  have hout := joinWith_plain_ne_nil _ hne2 hp
  have hhead := joinWith_plain_head _ hne2 hp
  have hfree : ∀ e ∈ segs.map String.data, '/' ∉ e := fun e he => (hp e he).2.1
  by_cases hP : projectPath = ""
  · subst hP
    obtain ⟨s, rest, rfl⟩ := List.exists_cons_of_ne_nil hne
    have hs : s ≠ "" := by
      intro hs
      have := (h s (by simp)).nonempty
      rw [hs] at this
      exact this rfl
    have hj : (stringsJoin (s :: rest) "/") ≠ "" := by
      intro hj
      have := congrArg String.data hj
      exact hout this
    have hr : decide ((stringsJoin (s :: rest) "/").data.head? = some '/') = false := by
      simpa [stringsJoin] using hhead
    have hd : (stringsJoin (s :: rest) "/").data = joinWith ['/'] ((s :: rest).map String.data) :=
      rfl
    simp only [Join, ne_eq, not_true_eq_false, if_false, hs, not_false_eq_true, if_true, Clean,
      if_neg hj, hr, Bool.false_eq_true, List.nil_append]
    rw [hd, splitSep_joinWith _ hne2 hfree, foldl_cleanStep_plain _ _ hp]
    simp only [List.nil_append, joinPrefix, if_true]
    rw [if_neg hout]
  · have hPd : projectPath.data ≠ [] := fun hd => hP (String.ext hd)
    obtain ⟨s, rest, rfl⟩ := List.exists_cons_of_ne_nil hne
    have hd : (stringsJoin (projectPath :: s :: rest) "/").data =
        projectPath.data ++ '/' :: joinWith ['/'] ((s :: rest).map String.data) := by
      simp [stringsJoin, joinWith]
    have hj : (stringsJoin (projectPath :: s :: rest) "/") ≠ "" := by
      intro hj
      have := congrArg String.data hj
      rw [hd] at this
      simp at this
    have hr : (stringsJoin (projectPath :: s :: rest) "/").data.head? = projectPath.data.head? := by
      rw [hd]
      cases hpd : projectPath.data with
      | nil => exact absurd hpd hPd
      | cons a as => rfl
    simp only [Join, ne_eq, hP, not_false_eq_true, if_true, Clean, if_neg hj, hr, joinPrefix,
      if_false]
    rw [hd, splitSep_append, splitSep_joinWith _ hne2 hfree, List.foldl_append,
      foldl_cleanStep_plain _ _ hp]
    simp only
    rw [joinWith_append _ _ hne2]
    have hne3 : ¬ ((if decide (projectPath.data.head? = some '/') = true then ['/'] else []) ++
        ((if (List.foldl (cleanStep (decide (projectPath.data.head? = some '/'))) ⟨[], 0⟩
            (splitSep projectPath.data)).out = [] then []
          else joinWith ['/'] (List.foldl (cleanStep (decide (projectPath.data.head? = some '/')))
            ⟨[], 0⟩ (splitSep projectPath.data)).out ++ ['/']) ++
          joinWith ['/'] (List.map String.data (s :: rest))) = []) := by
      intro hc
      exact hout (List.append_eq_nil.1 (List.append_eq_nil.1 hc).2).2
    rw [if_neg hne3]
    simp

theorem Join_plain_injective (projectPath : String) (a b : List String)
    (ha : a ≠ [] ∧ ∀ e ∈ a, Plain e) (hb : b ≠ [] ∧ ∀ e ∈ b, Plain e)
    (h : Join (projectPath :: a) = Join (projectPath :: b)) : a = b := by
  have hd := congrArg String.data h
  rw [Join_plain_data _ _ ha.1 ha.2, Join_plain_data _ _ hb.1 hb.2] at hd
  have hj := List.append_cancel_left hd
  have hfree : ∀ l : List String, (∀ e ∈ l, Plain e) → ∀ e ∈ l.map String.data, '/' ∉ e := by
    intro l hl e he
    obtain ⟨x, hx, rfl⟩ := List.mem_map.1 he
    exact (hl x hx).noSep
  have hm := joinWith_injective _ _ (by simpa using ha.1) (by simpa using hb.1)
    (hfree a ha.2) (hfree b hb.2) hj
  have hinj : Function.Injective String.data := fun x y hxy => String.ext hxy
  exact List.map_injective_iff.2 hinj hm

theorem cleanStep_dotdot_le (rooted : Bool) (b : CleanBuf) (e : List Char)
    (h : b.dotdot ≤ b.out.length) :
    (cleanStep rooted b e).dotdot ≤ (cleanStep rooted b e).out.length := by
  unfold cleanStep
  split_ifs <;>
  first
  | exact h
  | (simp only [List.length_dropLast, List.length_append, List.length_singleton]; omega)

theorem foldl_cleanStep_dotdot_le (rooted : Bool) (segs : List (List Char)) (b : CleanBuf)
    (h : b.dotdot ≤ b.out.length) :
    (segs.foldl (cleanStep rooted) b).dotdot ≤ (segs.foldl (cleanStep rooted) b).out.length := by
  induction segs generalizing b with
  | nil => exact h
  | cons e rest ih => exact ih _ (cleanStep_dotdot_le rooted b e h)

theorem cleanStep_dotdot_pos (rooted : Bool) (b : CleanBuf) (e : List Char)
    (h : 1 ≤ b.dotdot) : 1 ≤ (cleanStep rooted b e).dotdot := by
  unfold cleanStep
  split_ifs <;>
  first
  | exact h
  | (simp only []; omega)

theorem foldl_cleanStep_dotdot_pos (rooted : Bool) (segs : List (List Char)) (b : CleanBuf)
    (h : 1 ≤ b.dotdot) : 1 ≤ (segs.foldl (cleanStep rooted) b).dotdot := by
  induction segs generalizing b with
  | nil => exact h
  | cons e rest ih => exact ih _ (cleanStep_dotdot_pos rooted b e h)

theorem foldl_cleanStep_shift (rooted : Bool) (out : List (List Char)) (d : Nat)
    (hd : d ≤ out.length) (segs : List (List Char)) :
    ∀ acc : List (List Char), (segs.foldl (cleanStep false) ⟨acc, 0⟩).dotdot = 0 →
      segs.foldl (cleanStep rooted) ⟨out ++ acc, d⟩ =
        ⟨out ++ (segs.foldl (cleanStep false) ⟨acc, 0⟩).out, d⟩ := by
  induction segs with
  | nil => intro acc _; rfl
  | cons e rest ih =>
    intro acc h
    rw [List.foldl_cons] at h ⊢
    rw [List.foldl_cons]
    by_cases h1 : e = []
    · have e1 : ∀ r b, cleanStep r b e = b := by intro r b; simp [cleanStep, h1]
      rw [e1] at h ⊢
      rw [e1]
      exact ih acc h
    by_cases h2 : e = ['.']
    · have e1 : ∀ r b, cleanStep r b e = b := by intro r b; simp [cleanStep, h2]
      rw [e1] at h ⊢
      rw [e1]
      exact ih acc h
    by_cases h3 : e = ['.', '.']
    · by_cases hacc : acc = []
      · exfalso
        have e1 : cleanStep false ⟨acc, 0⟩ e = ⟨[e], 1⟩ := by
          simp [cleanStep, h3, hacc]
        rw [e1] at h
        have := foldl_cleanStep_dotdot_pos false rest ⟨[e], 1⟩ (le_refl 1)
        omega
      · have hlen : 0 < acc.length := List.length_pos.2 hacc
        have e1 : cleanStep false ⟨acc, 0⟩ e = ⟨acc.dropLast, 0⟩ := by
          simp [cleanStep, h3, hlen]
        have e2 : cleanStep rooted ⟨out ++ acc, d⟩ e = ⟨out ++ acc.dropLast, d⟩ := by
          have hlt : d < out.length + acc.length := by omega
          simp [cleanStep, h3, hlt, List.dropLast_append_of_ne_nil _ hacc]
        rw [e1] at h ⊢
        rw [e2]
        exact ih _ h
    · have e1 : ∀ r b, cleanStep r b e = ⟨b.out ++ [e], b.dotdot⟩ := by
        intro r b; simp [cleanStep, h1, h2, h3]
      rw [e1] at h ⊢
      rw [e1]
      simp only [List.append_assoc]
      exact ih _ h

theorem joinWith_cons_ne_nil (e : List Char) (rest : List (List Char)) (he : e ≠ []) :
    joinWith ['/'] (e :: rest) ≠ [] := by
  cases rest with
  | nil => simpa [joinWith] using he
  | cons e2 rest2 => simp [joinWith, he]

theorem joinWith_cons_head (e : List Char) (rest : List (List Char)) (he : e ≠ [])
    (hf : '/' ∉ e) : (joinWith ['/'] (e :: rest)).head? ≠ some '/' := by
  cases e with
  | nil => exact absurd rfl he
  | cons ch e2 =>
    have hc : ch ≠ '/' := fun hc => hf (by simp [hc])
    cases rest with
    | nil => simpa [joinWith] using hc
    | cons e3 rest2 => simpa [joinWith] using hc

theorem Join_norm_data (projectPath : String) (segs : List String)
    (h : Reduces (segs.map String.data)) :
    (Join (projectPath :: segs)).data =
      joinPrefix projectPath ++ joinWith ['/'] (normOf (segs.map String.data)) := by
  obtain ⟨hfirst, hfree, hdd, _, hnn, hout⟩ := h
  cases segs with
  | nil => exact absurd rfl hfirst
  | cons s rest =>
  have hsd : s.data ≠ [] := by simpa using hfirst
  have hne2 : (s :: rest).map String.data ≠ [] := by simp
  by_cases hP : projectPath = ""
  · subst hP
    have hs : s ≠ "" := fun hs => hsd (by rw [hs])
    have hd : (stringsJoin (s :: rest) "/").data = joinWith ['/'] ((s :: rest).map String.data) :=
      rfl
    have hj : (stringsJoin (s :: rest) "/") ≠ "" := by
      intro hj
      have := congrArg String.data hj
      rw [hd] at this
      exact joinWith_cons_ne_nil s.data _ hsd this
    have hr : decide ((stringsJoin (s :: rest) "/").data.head? = some '/') = false := by
      have := joinWith_cons_head s.data (rest.map String.data) hsd (hfree s.data (by simp))
      simpa [stringsJoin] using this
    simp only [Join, ne_eq, not_true_eq_false, if_false, hs, not_false_eq_true, if_true, Clean,
      if_neg hj, hr, Bool.false_eq_true, List.nil_append]
    rw [hd, splitSep_joinWith _ hne2 hfree]
    simp only [List.nil_append, joinPrefix, if_true]
    have hnorm : (List.foldl (cleanStep false) ⟨[], 0⟩ ((s :: rest).map String.data)).out =
        normOf ((s :: rest).map String.data) := rfl
    rw [hnorm, if_neg hout]
  · have hPd : projectPath.data ≠ [] := fun hd => hP (String.ext hd)
    have hd : (stringsJoin (projectPath :: s :: rest) "/").data =
        projectPath.data ++ '/' :: joinWith ['/'] ((s :: rest).map String.data) := by
      simp [stringsJoin, joinWith]
    have hj : (stringsJoin (projectPath :: s :: rest) "/") ≠ "" := by
      intro hj
      have := congrArg String.data hj
      rw [hd] at this
      simp at this
    have hr : (stringsJoin (projectPath :: s :: rest) "/").data.head? = projectPath.data.head? := by
      rw [hd]
      cases hpd : projectPath.data with
      | nil => exact absurd hpd hPd
      | cons a as => rfl
    simp only [Join, ne_eq, hP, not_false_eq_true, if_true, Clean, if_neg hj, hr, joinPrefix,
      if_false]
    rw [hd, splitSep_append, splitSep_joinWith _ hne2 hfree, List.foldl_append]
    have hinv := foldl_cleanStep_dotdot_le (decide (projectPath.data.head? = some '/'))
      (splitSep projectPath.data) ⟨[], 0⟩ (Nat.zero_le _)
    have hshift := foldl_cleanStep_shift (decide (projectPath.data.head? = some '/')) _ _ hinv
      ((s :: rest).map String.data) [] hdd
    rw [List.append_nil] at hshift
    rw [hshift]
    simp only
    have hnorm : (List.foldl (cleanStep false) ⟨[], 0⟩ ((s :: rest).map String.data)).out =
        normOf ((s :: rest).map String.data) := rfl
    rw [hnorm, joinWith_append _ _ hnn]
    have hne3 : ¬ ((if decide (projectPath.data.head? = some '/') = true then ['/'] else []) ++
        ((if (List.foldl (cleanStep (decide (projectPath.data.head? = some '/'))) ⟨[], 0⟩
            (splitSep projectPath.data)).out = [] then []
          else joinWith ['/'] (List.foldl (cleanStep (decide (projectPath.data.head? = some '/')))
            ⟨[], 0⟩ (splitSep projectPath.data)).out ++ ['/']) ++
          joinWith ['/'] (normOf (List.map String.data (s :: rest)))) = []) := by
      intro hc
      exact hout (List.append_eq_nil.1 (List.append_eq_nil.1 hc).2).2
    rw [if_neg hne3]
    simp

/-! ## C5: collisions among the destination paths -/

theorem append_ne_of_not_suffix (l suffix t : String) (h : HasSuffix t suffix = false) :
    l ++ suffix ≠ t := by
  intro he
  have : HasSuffix t suffix = true := (HasSuffix_iff _ _).2 ⟨l, he.symm⟩
  rw [h] at this
  exact absurd this (by decide)

theorem append_right_cancel_iff (l m suffix : String) : l ++ suffix = m ++ suffix ↔ l = m := by
  constructor
  · intro h
    have := congrArg String.data h
    simp only [String.data_append, List.append_left_inj] at this
    exact String.ext this
  · intro h; rw [h]

theorem append_ne_create (l s1 s2 : String) (h : s1.length ≤ s2.length) :
    l ++ s1 ≠ "create_" ++ l ++ s2 := by
  intro he
  have := congrArg String.length he
  simp only [String.length_append] at this
  have h7 : ("create_" : String).length = 7 := rfl
  omega

theorem plain_of_decide (e : String)
    (h : e.data ≠ [] ∧ '/' ∉ e.data ∧ e.data ≠ ['.'] ∧ e.data ≠ ['.', '.']) : Plain e :=
  ⟨h.1, h.2.1, h.2.2.1, h.2.2.2⟩

theorem plain_append (l suffix : String) (hl : '/' ∉ l.data) (hs : '/' ∉ suffix.data)
    (hlen : 3 ≤ suffix.data.length) : Plain (l ++ suffix) := by
  have hlen2 : 3 ≤ (l ++ suffix).data.length := by
    rw [String.data_append, List.length_append]; omega
  refine ⟨?_, ?_, ?_, ?_⟩
  · intro h; rw [h] at hlen2; simp at hlen2
  · rw [String.data_append, List.mem_append]; tauto
  · intro h; rw [h] at hlen2; simp at hlen2
  · intro h; rw [h] at hlen2; simp at hlen2

theorem plain_create (l suffix : String) (hl : '/' ∉ l.data) (hs : '/' ∉ suffix.data) :
    Plain ("create_" ++ l ++ suffix) := by
  have h7 : ("create_" : String).data.length = 7 := rfl
  have hlen2 : 7 ≤ ("create_" ++ l ++ suffix).data.length := by
    rw [String.data_append, String.data_append, List.length_append, List.length_append, h7]
    omega
  refine ⟨?_, ?_, ?_, ?_⟩
  · intro h; rw [h] at hlen2; simp at hlen2
  · simp only [String.data_append, List.mem_append]
    have : '/' ∉ ("create_" : String).data := by decide
    tauto
  · intro h; rw [h] at hlen2; simp at hlen2
  · intro h; rw [h] at hlen2; simp at hlen2

theorem fileElems_plain (c : ProjectConfig) (hL : Plain c.SampleAPINameLower) :
    ∀ p ∈ fileElems c, p.2 ≠ [] ∧ ∀ e ∈ p.2, Plain e := by
  have hf := hL.noSep
  simp only [fileElems, List.forall_mem_cons, List.not_mem_nil, ne_eq, reduceCtorEq,
    not_false_eq_true, true_and, false_implies, implies_true, and_true]
  repeat' apply And.intro
  all_goals
    first
    | exact hL
    | exact plain_append _ _ hf (by decide) (by decide)
    | exact plain_create _ _ hf (by decide)
    | exact plain_of_decide _ (by decide)

theorem fileElems_nodup_iff (c : ProjectConfig) :
    ((fileElems c).map Prod.snd).Nodup ↔
      c.SampleAPINameLower ≠ "error" ∧ c.SampleAPINameLower ≠ "health" := by
  simp only [fileElems, List.map_cons, List.map_nil, List.nodup_cons, List.mem_cons,
    List.cons.injEq, List.mem_singleton, List.not_mem_nil, not_or, and_true, true_and,
    and_false, false_and, not_false_eq_true, reduceCtorEq, String.reduceEq, List.nodup_nil,
    or_false, false_or, and_self]
  have e1 : ¬ "common.go" = c.SampleAPINameLower ++ "_request.go" :=
    fun h => append_ne_of_not_suffix _ _ _ (by decide) h.symm
  have e2 : ¬ "common.go" = c.SampleAPINameLower ++ "_response.go" :=
    fun h => append_ne_of_not_suffix _ _ _ (by decide) h.symm
  have e3 : ¬ "interfaces.go" = c.SampleAPINameLower ++ "_repository.go" :=
    fun h => append_ne_of_not_suffix _ _ _ (by decide) h.symm
  have e4 : ¬ c.SampleAPINameLower ++ ".go" = "create_" ++ c.SampleAPINameLower ++ "_service.go" :=
    append_ne_create _ _ _ (by decide)
  have e5 : ¬ c.SampleAPINameLower ++ "_handler.go" =
      "create_" ++ c.SampleAPINameLower ++ "_handler.go" :=
    append_ne_create _ _ _ (by decide)
  have e6 : ("error_response.go" = c.SampleAPINameLower ++ "_response.go") ↔
      c.SampleAPINameLower = "error" := by
    have : ("error_response.go" : String) = "error" ++ "_response.go" := by decide
    rw [this, append_right_cancel_iff]
    exact eq_comm
  have e7 : ("health" = c.SampleAPINameLower ∧
      "health_handler.go" = c.SampleAPINameLower ++ "_handler.go") ↔
      c.SampleAPINameLower = "health" := by
    constructor
    · intro h; exact h.1.symm
    · intro h; rw [h]; exact ⟨rfl, by decide⟩
  have e8 : ¬ ("health" = c.SampleAPINameLower ∧
      "health_handler.go" = "create_" ++ c.SampleAPINameLower ++ "_handler.go") := by
    rintro ⟨h1, h2⟩
    rw [← h1] at h2
    exact absurd h2 (by decide)
  simp only [e1, e2, e3, e4, e5, e6, e7, e8, not_false_eq_true, true_and, and_true]

theorem destinations_eq_map (c : ProjectConfig) (projectPath : String) :
    destinations c projectPath =
      ((fileElems c).map Prod.snd).map fun segs => Join (projectPath :: segs) := by
  simp [destinations, files, List.map_map, Function.comp_def]

theorem destinations_nodup_plain (c : ProjectConfig) (projectPath : String)
    (hL : Plain c.SampleAPINameLower) :
    (destinations c projectPath).Nodup ↔
      c.SampleAPINameLower ≠ "error" ∧ c.SampleAPINameLower ≠ "health" := by
  rw [destinations_eq_map, ← fileElems_nodup_iff]
  have hpl : ∀ segs ∈ (fileElems c).map Prod.snd, segs ≠ [] ∧ ∀ e ∈ segs, Plain e := by
    intro segs hs
    obtain ⟨p, hp, rfl⟩ := List.mem_map.1 hs
    exact fileElems_plain c hL p hp
  constructor
  · exact List.Nodup.of_map _
  · intro hn
    exact List.Nodup.map_on
      (fun a ha b hb hab => Join_plain_injective projectPath a b (hpl a ha) (hpl b hb) hab) hn

theorem destinations_nodup_of_norm (c : ProjectConfig) (projectPath : String)
    (hred : ∀ p ∈ fileElems c, Reduces (p.2.map String.data))
    (hnd : ((fileElems c).map fun p => normOf (p.2.map String.data)).Nodup) :
    (destinations c projectPath).Nodup := by
  have hmap : destinations c projectPath =
      ((fileElems c).map fun p => normOf (p.2.map String.data)).map
        fun n => (⟨joinPrefix projectPath ++ joinWith ['/'] n⟩ : String) := by
    rw [List.map_map]
    simp only [destinations, files, List.map_map]
    apply List.map_congr_left
    intro p hp
    apply String.ext
    exact Join_norm_data projectPath p.2 (hred p hp)
  rw [hmap]
  refine List.Nodup.map_on ?_ hnd
  intro x hx y hy hxy
  obtain ⟨p, hp, rfl⟩ := List.mem_map.1 hx
  obtain ⟨q, hq, rfl⟩ := List.mem_map.1 hy
  obtain ⟨_, _, _, fp, np, _⟩ := hred p hp
  obtain ⟨_, _, _, fq, nq, _⟩ := hred q hq
  have hd := congrArg String.data hxy
  exact joinWith_injective _ _ np nq fp fq (List.append_cancel_left hd)

theorem fileElems_congr (c d : ProjectConfig)
    (h : c.SampleAPINameLower = d.SampleAPINameLower) : fileElems c = fileElems d := by
  unfold fileElems
  rw [h]

set_option maxRecDepth 100000 in
theorem dot_reduces : ∀ p ∈ fileElems (configWithLower "."), Reduces (p.2.map String.data) := by
  decide

set_option maxRecDepth 100000 in
theorem dot_nodup :
    ((fileElems (configWithLower ".")).map fun p => normOf (p.2.map String.data)).Nodup := by
  decide

set_option maxRecDepth 100000 in
theorem dotdot_reduces :
    ∀ p ∈ fileElems (configWithLower ".."), Reduces (p.2.map String.data) := by
  decide

set_option maxRecDepth 100000 in
theorem dotdot_nodup :
    ((fileElems (configWithLower "..")).map fun p => normOf (p.2.map String.data)).Nodup := by
  decide

set_option maxRecDepth 100000 in
theorem empty_reduces : ∀ p ∈ fileElems (configWithLower ""), Reduces (p.2.map String.data) := by
  decide

set_option maxRecDepth 100000 in
theorem empty_nodup :
    ((fileElems (configWithLower "")).map fun p => normOf (p.2.map String.data)).Nodup := by
  decide

theorem destinations_nodup_special (c : ProjectConfig) (projectPath : String)
    (h : c.SampleAPINameLower = "" ∨ c.SampleAPINameLower = "." ∨ c.SampleAPINameLower = "..") :
    (destinations c projectPath).Nodup := by
  rcases h with h | h | h
  · have e := fileElems_congr c (configWithLower "") h
    exact destinations_nodup_of_norm c projectPath (by rw [e]; exact empty_reduces)
      (by rw [e]; exact empty_nodup)
  · have e := fileElems_congr c (configWithLower ".") h
    exact destinations_nodup_of_norm c projectPath (by rw [e]; exact dot_reduces)
      (by rw [e]; exact dot_nodup)
  · have e := fileElems_congr c (configWithLower "..") h
    exact destinations_nodup_of_norm c projectPath (by rw [e]; exact dotdot_reduces)
      (by rw [e]; exact dotdot_nodup)

set_option maxRecDepth 100000 in
/-- C5, counterexample: the processed and valid configuration with the sample
entity `Error` has 30 destinations, and the entries `error_response.go` and
`<entity>_response.go` are the same path; likewise `Health` makes
`health/health_handler.go` and `<entity>/<entity>_handler.go` collide, and a
sample entity with separators can reach the file of another entry. -/
theorem destinations_collide :
    Validate errorConfig = none ∧
    (destinations errorConfig (projectPathOf errorConfig)).length = 30 ∧
    ¬ (destinations errorConfig (projectPathOf errorConfig)).Nodup ∧
    (destinations errorConfig (projectPathOf errorConfig))[20]? =
      some "myapp/internal/dto/response/error_response.go" ∧
    (destinations errorConfig (projectPathOf errorConfig))[21]? =
      some "myapp/internal/dto/response/error_response.go" ∧
    Validate healthConfig = none ∧
    ¬ (destinations healthConfig (projectPathOf healthConfig)).Nodup ∧
    Validate traversalConfig = none ∧
    ¬ (destinations traversalConfig (projectPathOf traversalConfig)).Nodup := by
  decide

/-- C5, amended: when the lower-cased sample entity name holds no path
separator, `generateFiles` builds 30 destination paths under any project path,
and they are pairwise distinct exactly when that name is neither `error` nor
`health`. -/
theorem destinations_nodup_iff (c : ProjectConfig) (projectPath : String)
    (hsep : '/' ∉ c.SampleAPINameLower.data) :
    (destinations c projectPath).length = 30 ∧
    ((destinations c projectPath).Nodup ↔
      c.SampleAPINameLower ≠ "error" ∧ c.SampleAPINameLower ≠ "health") := by
  refine ⟨by simp [destinations, files, fileElems], ?_⟩
  by_cases h0 : c.SampleAPINameLower = ""
  · rw [iff_true_right (by rw [h0]; decide)]
    exact destinations_nodup_special c projectPath (Or.inl h0)
  by_cases h1 : c.SampleAPINameLower = "."
  · rw [iff_true_right (by rw [h1]; decide)]
    exact destinations_nodup_special c projectPath (Or.inr (Or.inl h1))
  by_cases h2 : c.SampleAPINameLower = ".."
  · rw [iff_true_right (by rw [h2]; decide)]
    exact destinations_nodup_special c projectPath (Or.inr (Or.inr h2))
  have hL : Plain c.SampleAPINameLower :=
    ⟨fun h => h0 (String.ext h), hsep, fun h => h1 (String.ext h), fun h => h2 (String.ext h)⟩
  exact destinations_nodup_plain c projectPath hL

set_option maxRecDepth 100000 in
/-- Witness for C5 (amended): the processed default configuration, whose sample
entity is `User`, is valid and its 30 destinations are pairwise distinct. -/
theorem destinations_nodup_iff_witness :
    Validate defaultConfig = none ∧ defaultConfig.SampleAPINameLower = "user" ∧
    (destinations defaultConfig (projectPathOf defaultConfig)).Nodup :=
  ⟨by decide, by decide,
    (destinations_nodup_iff defaultConfig (projectPathOf defaultConfig)
      (by decide)).2.2 (by decide)⟩

/-! ## C6: an existing target stops `Generate` before any effect -/

/-- C6: when the target path `filepath.Join(OutputDir, ProjectName)` exists,
`Generate` returns the error `directory ... already exists`, leaves the state of
the outside world as it was and makes no call at all: no directory creation, no
file creation or write, no external command. -/
theorem Generate_existing_target {σ : Type} (sys : Sys σ) (c : ProjectConfig) (st : σ)
    (h : sys.stat st (projectPathOf c) = true) :
    Generate sys c st =
      (⟨st, []⟩, some ("directory " ++ projectPathOf c ++ " already exists")) ∧
    (Generate sys c st).1.st = st ∧ (Generate sys c st).1.log = [] := by
  have e : Generate sys c st =
      (⟨st, []⟩, some ("directory " ++ projectPathOf c ++ " already exists")) := by
    unfold Generate
    simp only [h, if_true]
  rw [e]
  exact ⟨rfl, rfl, rfl⟩

/-- Witness for C6: the directory `myapp` exists and the default configuration
targets it. -/
theorem Generate_existing_target_witness :
    (Generate (demoSys [] []) defaultConfig ⟨[], ["myapp"]⟩).2 =
      some "directory myapp already exists" ∧
    (Generate (demoSys [] []) defaultConfig ⟨[], ["myapp"]⟩).1.st = ⟨[], ["myapp"]⟩ ∧
    (Generate (demoSys [] []) defaultConfig ⟨[], ["myapp"]⟩).1.log = [] := by
  have h := Generate_existing_target (demoSys [] []) defaultConfig ⟨[], ["myapp"]⟩ (by decide)
  refine ⟨?_, h.2.1, h.2.2⟩
  rw [h.1]
  decide

/-! ## Lemmas on the log -/

theorem commandsRun_emit {σ : Type} (r : Run σ) (st : σ) (e : Event) :
    commandsRun (r.emit st e).log =
      commandsRun r.log ++
        (match e with
        | Event.exec _ argv => [argv]
        | _ => []) := by
  unfold commandsRun Run.emit
  rw [List.filterMap_append]
  cases e <;> rfl

theorem commandsRun_print {σ : Type} (r : Run σ) (text : String) :
    commandsRun (r.print text).log = commandsRun r.log := by
  unfold Run.print
  rw [commandsRun_emit]
  simp

theorem createdPaths_emit {σ : Type} (r : Run σ) (st : σ) (e : Event) :
    createdPaths (r.emit st e).log =
      createdPaths r.log ++
        (match e with
        | Event.create path => [path]
        | _ => []) := by
  unfold createdPaths Run.emit
  rw [List.filterMap_append]
  cases e <;> rfl

theorem createdPaths_print {σ : Type} (r : Run σ) (text : String) :
    createdPaths (r.print text).log = createdPaths r.log := by
  unfold Run.print
  rw [createdPaths_emit]
  simp

theorem mkdirs_log {σ : Type} (sys : Sys σ) (dirs : List String) (r : Run σ) :
    commandsRun (mkdirs sys dirs r).1.log = commandsRun r.log ∧
      createdPaths (mkdirs sys dirs r).1.log = createdPaths r.log := by
  induction dirs generalizing r with
  | nil => exact ⟨rfl, rfl⟩
  | cons dir rest ih =>
    unfold mkdirs
    rcases hm : sys.mkdirAll r.st dir with ⟨st1, _ | e⟩
    · simp only
      rw [(ih _).1, (ih _).2, commandsRun_emit, createdPaths_emit]
      simp
    · simp only
      rw [commandsRun_emit, createdPaths_emit]
      simp

theorem RenderToFile_commandsRun {σ : Type} (sys : Sys σ) (c : ProjectConfig) (t o : String)
    (r : Run σ) : commandsRun (RenderToFile sys c t o r).1.log = commandsRun r.log := by
  unfold RenderToFile
  split
  · rfl
  · split
    · rfl
    · split
      · simp only [commandsRun_emit, List.append_nil]
      · dsimp only
        split <;> simp only [commandsRun_emit, List.append_nil]

theorem RenderToFile_createdPaths {σ : Type} (sys : Sys σ) (c : ProjectConfig) (t o : String)
    (r r1 : Run σ) (h : RenderToFile sys c t o r = (r1, none)) :
    createdPaths r1.log = createdPaths r.log ++ [o] := by
  unfold RenderToFile at h
  split at h
  · simp at h
  · split at h
    · simp at h
    · split at h
      · simp at h
      · dsimp only at h
        split at h
        · simp at h
        · simp only [Prod.mk.injEq, and_true] at h
          rw [← h]
          simp only [createdPaths_emit, List.append_nil]

theorem renderFiles_commandsRun {σ : Type} (sys : Sys σ) (c : ProjectConfig)
    (l : List (String × String)) (r : Run σ) :
    commandsRun (renderFiles sys c l r).1.log = commandsRun r.log := by
  induction l generalizing r with
  | nil => rfl
  | cons file rest ih =>
    unfold renderFiles
    have hr := RenderToFile_commandsRun sys c file.1 file.2 r
    rcases hm : RenderToFile sys c file.1 file.2 r with ⟨r1, _ | e⟩
    · rw [hm] at hr
      simp only
      rw [ih, hr]
    · rw [hm] at hr
      exact hr

theorem renderFiles_createdPaths {σ : Type} (sys : Sys σ) (c : ProjectConfig)
    (l : List (String × String)) (r r1 : Run σ) (h : renderFiles sys c l r = (r1, none)) :
    createdPaths r1.log = createdPaths r.log ++ l.map Prod.snd := by
  induction l generalizing r with
  | nil =>
    simp only [renderFiles, Prod.mk.injEq, and_true] at h
    rw [← h]
    simp
  | cons file rest ih =>
    unfold renderFiles at h
    rcases hm : RenderToFile sys c file.1 file.2 r with ⟨r2, _ | e⟩
    · rw [hm] at h
      simp only at h
      rw [ih r2 h, RenderToFile_createdPaths sys c _ _ r r2 hm]
      simp
    · rw [hm] at h
      simp at h

theorem renderFiles_append {σ : Type} (sys : Sys σ) (c : ProjectConfig)
    (pre post : List (String × String)) (r r1 : Run σ)
    (h : renderFiles sys c pre r = (r1, none)) :
    renderFiles sys c (pre ++ post) r = renderFiles sys c post r1 := by
  induction pre generalizing r with
  | nil =>
    simp only [renderFiles, Prod.mk.injEq, and_true] at h
    rw [← h]
    rfl
  | cons file rest ih =>
    rw [List.cons_append]
    simp only [renderFiles] at h ⊢
    rcases hm : RenderToFile sys c file.1 file.2 r with ⟨r2, _ | e⟩
    · rw [hm] at h
      simp only at h ⊢
      exact ih r2 h
    · rw [hm] at h
      simp at h

theorem runCommand_commandsRun {σ : Type} (sys : Sys σ) (what : String) (argv : List String)
    (projectPath : String) (r : Run σ) :
    commandsRun (runCommand sys what argv projectPath r).1.log = commandsRun r.log ++ [argv] := by
  unfold runCommand
  split <;> simp only [commandsRun_emit]

theorem gitStep_commandsRun {σ : Type} (sys : Sys σ) (c : ProjectConfig) (projectPath : String)
    (r : Run σ) :
    commandsRun (gitStep sys c projectPath r).log =
      commandsRun r.log ++ (if c.SkipGit then [] else [gitInit]) := by
  unfold gitStep
  cases hs : c.SkipGit
  · have hr := runCommand_commandsRun sys "git init" gitInit projectPath (r.print msgGit)
    simp only [Bool.not_false, if_true, initGit, Bool.false_eq_true, if_false]
    rcases hm : runCommand sys "git init" gitInit projectPath (r.print msgGit) with ⟨r1, _ | e⟩
    · rw [hm] at hr
      simp only
      rw [hr, commandsRun_print]
    · rw [hm] at hr
      simp only
      rw [commandsRun_print, hr, commandsRun_print]
  · simp

theorem dependencyStep_commandsRun {σ : Type} (sys : Sys σ) (projectPath : String)
    (r : Run σ) :
    commandsRun (dependencyStep sys projectPath r).log = commandsRun r.log ++ [goModTidy] := by
  unfold dependencyStep downloadDependencies
  have hr := runCommand_commandsRun sys "go mod tidy" goModTidy projectPath (r.print msgDeps)
  rcases hm : runCommand sys "go mod tidy" goModTidy projectPath (r.print msgDeps) with ⟨r1, _ | e⟩
  · rw [hm] at hr
    simp only
    rw [hr, commandsRun_print]
  · rw [hm] at hr
    simp only
    rw [commandsRun_print, commandsRun_print, hr, commandsRun_print]

theorem fileStep_commandsRun {σ : Type} (sys : Sys σ) (c : ProjectConfig) (st : σ) :
    commandsRun (fileStep sys c st).1.log = [] := by
  unfold fileStep generateFiles
  rw [renderFiles_commandsRun, commandsRun_print]
  unfold dirStep createDirectoryStructure
  rw [(mkdirs_log _ _ _).1, commandsRun_print]
  rfl

theorem Generate_of_steps {σ : Type} (sys : Sys σ) (c : ProjectConfig) (st : σ)
    (hstat : sys.stat st (projectPathOf c) = false) (hdirs : (dirStep sys c st).2 = none) :
    Generate sys c st =
      match fileStep sys c st with
      | (r2, some e) => (r2, some ("failed to generate files: " ++ e))
      | (r2, none) =>
        match initGoModule sys c (projectPathOf c) (r2.print msgModule) with
        | (r3, some e) => (r3, some ("failed to initialize go module: " ++ e))
        | (r3, none) =>
          (dependencyStep sys (projectPathOf c) (gitStep sys c (projectPathOf c) r3), none) := by
  unfold Generate fileStep
  simp only [hstat, Bool.false_eq_true, if_false]
  have hd : createDirectoryStructure sys c (projectPathOf c) ((⟨st, []⟩ : Run σ).print msgDirs) =
      dirStep sys c st := rfl
  rw [hd]
  rcases hm : dirStep sys c st with ⟨r1, _ | e⟩
  · rfl
  · rw [hm] at hdirs
    simp at hdirs

/-! ## C7: which external-command failures are fatal -/

theorem Generate_module_cases {σ : Type} (sys : Sys σ) (c : ProjectConfig) (st : σ)
    (hstat : sys.stat st (projectPathOf c) = false) (hdirs : (dirStep sys c st).2 = none)
    (hfiles : (fileStep sys c st).2 = none) :
    (∀ e, (moduleStep sys c st).2 = some e →
      (Generate sys c st).2 = some ("failed to initialize go module: " ++ e) ∧
      commandsRun (Generate sys c st).1.log = [goModInit c] ∧
      gitInit ∉ commandsRun (Generate sys c st).1.log ∧
      goModTidy ∉ commandsRun (Generate sys c st).1.log) ∧
    ((moduleStep sys c st).2 = none →
      (Generate sys c st).2 = none ∧
      commandsRun (Generate sys c st).1.log =
        [goModInit c] ++ (if c.SkipGit then [] else [gitInit]) ++ [goModTidy] ∧
      (gitInit ∈ commandsRun (Generate sys c st).1.log ↔ c.SkipGit = false) ∧
      goModTidy ∈ commandsRun (Generate sys c st).1.log) := by
  have hg := Generate_of_steps sys c st hstat hdirs
  have hlog := fileStep_commandsRun sys c st
  have hmod : initGoModule sys c (projectPathOf c) ((fileStep sys c st).1.print msgModule) =
      moduleStep sys c st := rfl
  have hmlog : commandsRun (moduleStep sys c st).1.log = [goModInit c] := by
    unfold moduleStep initGoModule
    rw [runCommand_commandsRun, commandsRun_print, hlog]
    rfl
  rcases hf : fileStep sys c st with ⟨r2, _ | e2⟩
  · rw [hf] at hg hmod
    simp only at hg hmod
    rw [hmod] at hg
    rcases hm : moduleStep sys c st with ⟨r3, _ | e3⟩
    · rw [hm] at hg hmlog
      simp only at hg hmlog
      rw [hg]
      refine ⟨fun e he => by simp at he, fun _ => ?_⟩
      have hl : commandsRun
          (dependencyStep sys (projectPathOf c) (gitStep sys c (projectPathOf c) r3)).log =
          [goModInit c] ++ (if c.SkipGit then [] else [gitInit]) ++ [goModTidy] := by
        rw [dependencyStep_commandsRun, gitStep_commandsRun, hmlog]
      refine ⟨rfl, hl, ?_, ?_⟩
      · simp only [hl]
        cases hs : c.SkipGit <;> simp [goModInit, gitInit, goModTidy]
      · simp only [hl]
        simp
    · rw [hm] at hg hmlog
      simp only at hg hmlog
      rw [hg]
      refine ⟨fun e he => ?_, fun he => by simp at he⟩
      simp only [Option.some.injEq] at he
      subst he
      refine ⟨rfl, hmlog, ?_, ?_⟩
      · simp only [hmlog]
        simp [goModInit, gitInit]
      · simp only [hmlog]
        simp [goModInit, goModTidy]
  · rw [hf] at hfiles
    simp at hfiles

theorem moduleStep_of_failure {σ : Type} (sys : Sys σ) (c : ProjectConfig) (st st1 : σ)
    (out e : String)
    (h : sys.combinedOutput (fileStep sys c st).1.st (projectPathOf c) (goModInit c) =
      (st1, out, some e)) :
    moduleStep sys c st =
      (((fileStep sys c st).1.print msgModule).emit st1
          (Event.exec (projectPathOf c) (goModInit c)),
        some ("go mod init failed: " ++ e ++ "\n" ++ out)) := by
  have hst : ((fileStep sys c st).1.print msgModule).st = (fileStep sys c st).1.st := rfl
  unfold moduleStep initGoModule runCommand
  rw [hst, h]
  rfl

theorem moduleStep_of_success {σ : Type} (sys : Sys σ) (c : ProjectConfig) (st st1 : σ)
    (out : String)
    (h : sys.combinedOutput (fileStep sys c st).1.st (projectPathOf c) (goModInit c) =
      (st1, out, none)) :
    moduleStep sys c st =
      (((fileStep sys c st).1.print msgModule).emit st1
          (Event.exec (projectPathOf c) (goModInit c)), none) := by
  have hst : ((fileStep sys c st).1.print msgModule).st = (fileStep sys c st).1.st := rfl
  unfold moduleStep initGoModule runCommand
  rw [hst, h]

/-- C7: let the target be absent and the directory and file steps succeed, and
look at the command `go mod init <ModuleName>` run in the project directory in
the state the file step left. If the command fails with error `e` and output
`out`, `Generate` returns the error `failed to initialize go module: go mod init
failed: e`, a newline and `out`, and `go mod init` is the only command run:
neither `git init` nor `go mod tidy` is. If the command succeeds, `Generate`
returns nil whatever `git init` and `go mod tidy` do, `go mod tidy` is run, and
`git init` is run exactly when `SkipGit` is false. -/
theorem Generate_command_steps {σ : Type} (sys : Sys σ) (c : ProjectConfig) (st : σ)
    (hstat : sys.stat st (projectPathOf c) = false) (hdirs : (dirStep sys c st).2 = none)
    (hfiles : (fileStep sys c st).2 = none) :
    (∀ st1 out e,
      sys.combinedOutput (fileStep sys c st).1.st (projectPathOf c) (goModInit c) =
        (st1, out, some e) →
      (Generate sys c st).2 =
        some ("failed to initialize go module: " ++ ("go mod init failed: " ++ e ++ "\n" ++ out)) ∧
      (Generate sys c st).1.st = st1 ∧
      commandsRun (Generate sys c st).1.log = [goModInit c] ∧
      gitInit ∉ commandsRun (Generate sys c st).1.log ∧
      goModTidy ∉ commandsRun (Generate sys c st).1.log) ∧
    (∀ st1 out,
      sys.combinedOutput (fileStep sys c st).1.st (projectPathOf c) (goModInit c) =
        (st1, out, none) →
      (Generate sys c st).2 = none ∧
      commandsRun (Generate sys c st).1.log =
        [goModInit c] ++ (if c.SkipGit then [] else [gitInit]) ++ [goModTidy] ∧
      (gitInit ∈ commandsRun (Generate sys c st).1.log ↔ c.SkipGit = false) ∧
      goModTidy ∈ commandsRun (Generate sys c st).1.log) := by
  have hcases := Generate_module_cases sys c st hstat hdirs hfiles
  constructor
  · intro st1 out e h
    have hm := moduleStep_of_failure sys c st st1 out e h
    have h1 := hcases.1 _ (by rw [hm])
    refine ⟨h1.1, ?_, h1.2⟩
    have hg := Generate_of_steps sys c st hstat hdirs
    have hmod : initGoModule sys c (projectPathOf c) ((fileStep sys c st).1.print msgModule) =
        moduleStep sys c st := rfl
    rcases hf : fileStep sys c st with ⟨r2, _ | e2⟩
    · rw [hf] at hg hmod
      simp only at hg hmod
      rw [hmod, hm] at hg
      rw [hg]
      rfl
    · rw [hf] at hfiles
      simp at hfiles
  · intro st1 out h
    have hm := moduleStep_of_success sys c st st1 out h
    exact hcases.2 (by rw [hm])

set_option maxRecDepth 1000000 in
/-- Witness for C7, on the default configuration in the empty world: with a
failing `go mod init` the run ends in an error after that one command; with
`go mod init` succeeding and both `git init` and `go mod tidy` failing the run
returns nil and has run all three. -/
theorem Generate_command_steps_witness :
    ((Generate (demoSys [] [goModInit defaultConfig]) defaultConfig emptyWorld).2 =
        some ("failed to initialize go module: " ++
          "go mod init failed: exit status 1\ncommand output") ∧
      commandsRun (Generate (demoSys [] [goModInit defaultConfig]) defaultConfig emptyWorld).1.log =
        [["go", "mod", "init", "github.com/username/myapp"]]) ∧
    ((Generate (demoSys [] [gitInit, goModTidy]) defaultConfig emptyWorld).2 = none ∧
      commandsRun (Generate (demoSys [] [gitInit, goModTidy]) defaultConfig emptyWorld).1.log =
        [["go", "mod", "init", "github.com/username/myapp"], ["git", "init"],
          ["go", "mod", "tidy"]]) := by
  have ha := (Generate_command_steps (demoSys [] [goModInit defaultConfig]) defaultConfig
    emptyWorld (by decide) (by decide) (by decide)).1
    (fileStep (demoSys [] [goModInit defaultConfig]) defaultConfig emptyWorld).1.st
    "command output" "exit status 1" (by decide)
  have hb := (Generate_command_steps (demoSys [] [gitInit, goModTidy]) defaultConfig
    emptyWorld (by decide) (by decide) (by decide)).2
    (fileStep (demoSys [] [gitInit, goModTidy]) defaultConfig emptyWorld).1.st "" (by decide)
  exact ⟨⟨ha.1, ha.2.2.1⟩, ⟨hb.1, hb.2.1⟩⟩

/-! ## C8: a template that cannot be resolved stops `Generate` -/

/-- C8: let the directory step succeed and the entries `pre` of the manifest be
rendered without error; if the template `t` of the next entry is in neither the
embedded store nor any of the three disk candidates, `Generate` stops there with
an error that names `t`: the run ends in the state the entries `pre` left, only
their destinations were created, and no external command is run. -/
theorem Generate_template_missing {σ : Type} (sys : Sys σ) (c : ProjectConfig) (st : σ)
    (pre post : List (String × String)) (t o : String)
    (hstat : sys.stat st (projectPathOf c) = false) (hdirs : (dirStep sys c st).2 = none)
    (hsplit : files c (projectPathOf c) = pre ++ (t, o) :: post)
    (hpre : (renderFiles sys c pre ((dirStep sys c st).1.print msgFiles)).2 = none)
    (hemb : sys.embeddedFS ("templates/" ++ t) = none)
    (hdisk : ∀ path ∈ ["templates/" ++ t, "../../templates/" ++ t, t],
      sys.readFile (renderFiles sys c pre ((dirStep sys c st).1.print msgFiles)).1.st path =
        none) :
    Generate sys c st =
      ((renderFiles sys c pre ((dirStep sys c st).1.print msgFiles)).1,
        some ("failed to generate files: " ++ ("failed to generate " ++ o ++ ": " ++
          ("failed to get template " ++ t ++ ": " ++
            ("template " ++ t ++ " not found in embedded FS or disk"))))) ∧
    (∃ m, (Generate sys c st).2 = some m ∧ Contains m t) ∧
    createdPaths (Generate sys c st).1.log = pre.map Prod.snd ∧
    commandsRun (Generate sys c st).1.log = [] := by
  have hrun : renderFiles sys c pre ((dirStep sys c st).1.print msgFiles) =
      ((renderFiles sys c pre ((dirStep sys c st).1.print msgFiles)).1, none) := by
    rw [← hpre]
  have hget : getTemplateContent sys
      (renderFiles sys c pre ((dirStep sys c st).1.print msgFiles)).1.st t =
      Except.error ("template " ++ t ++ " not found in embedded FS or disk") := by
    unfold getTemplateContent
    rw [hemb]
    simp only [readFirst, hdisk _ (List.mem_cons_self _ _),
      hdisk _ (List.mem_cons_of_mem _ (List.mem_cons_self _ _)),
      hdisk t (by simp)]
  have hfile : fileStep sys c st =
      ((renderFiles sys c pre ((dirStep sys c st).1.print msgFiles)).1,
        some ("failed to generate " ++ o ++ ": " ++
          ("failed to get template " ++ t ++ ": " ++
            ("template " ++ t ++ " not found in embedded FS or disk")))) := by
    unfold fileStep generateFiles
    rw [hsplit, renderFiles_append sys c pre _ _ _ hrun]
    simp only [renderFiles, RenderToFile, hget]
  have hg := Generate_of_steps sys c st hstat hdirs
  rw [hfile] at hg
  simp only at hg
  have hcmd := fileStep_commandsRun sys c st
  rw [hfile] at hcmd
  have hcreated := renderFiles_createdPaths sys c pre _ _ hrun
  rw [createdPaths_print] at hcreated
  have hdl : createdPaths (dirStep sys c st).1.log = [] := by
    unfold dirStep createDirectoryStructure
    rw [(mkdirs_log _ _ _).2, createdPaths_print]
    rfl
  rw [hdl, List.nil_append] at hcreated
  rw [hg]
  refine ⟨rfl, ⟨_, rfl, ?_⟩, hcreated, hcmd⟩
  refine ⟨"failed to generate files: " ++ ("failed to generate " ++ o ++ ": " ++
    "failed to get template "), ": " ++ ("template " ++ t ++ " not found in embedded FS or disk"),
    ?_⟩
  apply String.ext
  simp only [String.data_append, List.append_assoc]

set_option maxRecDepth 1000000 in
/-- Witness for C8: the embedded store lacks `project/Makefile.tmpl`, the fourth
entry of the manifest, and the disk holds no template: the three entries before
it are rendered, then `Generate` fails naming the template, and runs no command. -/
theorem Generate_template_missing_witness :
    (Generate (demoSys ["templates/project/Makefile.tmpl"] []) defaultConfig emptyWorld).2 =
      some ("failed to generate files: failed to generate myapp/Makefile: " ++
        "failed to get template project/Makefile.tmpl: " ++
        "template project/Makefile.tmpl not found in embedded FS or disk") ∧
    createdPaths
        (Generate (demoSys ["templates/project/Makefile.tmpl"] []) defaultConfig emptyWorld).1.log =
      ["myapp/cmd/server/main.go", "myapp/Dockerfile", "myapp/docker-compose.yml"] ∧
    commandsRun
        (Generate (demoSys ["templates/project/Makefile.tmpl"] []) defaultConfig emptyWorld).1.log =
      [] := by
  have h := Generate_template_missing (demoSys ["templates/project/Makefile.tmpl"] [])
    defaultConfig emptyWorld
    ((files defaultConfig (projectPathOf defaultConfig)).take 3)
    ((files defaultConfig (projectPathOf defaultConfig)).drop 4)
    "project/Makefile.tmpl" "myapp/Makefile"
    (by decide) (by decide) (by decide) (by decide) (by decide) (by decide)
  refine ⟨?_, ?_, h.2.2.2⟩
  · rw [h.1]
    decide
  · rw [h.2.2.1]
    decide

/-! ## C9: the order of template resolution -/

/-- C9: `getTemplateContent` returns the embedded content at `templates/<id>`
when there is one, whatever the disk holds; otherwise the content of the first
readable path among `templates/<id>`, `../../templates/<id>` and `<id>`, in this
order; and it fails exactly when all four are absent, with the not-found error
that names `id`. -/
theorem getTemplateContent_resolution {σ : Type} (sys : Sys σ) (st : σ) (id : String) :
    getTemplateContent sys st id =
      (match sys.embeddedFS ("templates/" ++ id), sys.readFile st ("templates/" ++ id),
          sys.readFile st ("../../templates/" ++ id), sys.readFile st id with
        | some data, _, _, _ => Except.ok data
        | none, some data, _, _ => Except.ok data
        | none, none, some data, _ => Except.ok data
        | none, none, none, some data => Except.ok data
        | none, none, none, none =>
          Except.error ("template " ++ id ++ " not found in embedded FS or disk")) ∧
    ((∃ e, getTemplateContent sys st id = Except.error e) ↔
      sys.embeddedFS ("templates/" ++ id) = none ∧ sys.readFile st ("templates/" ++ id) = none ∧
        sys.readFile st ("../../templates/" ++ id) = none ∧ sys.readFile st id = none) ∧
    (∀ e, getTemplateContent sys st id = Except.error e →
      e = "template " ++ id ++ " not found in embedded FS or disk" ∧ Contains e id) := by
  have hc : Contains ("template " ++ id ++ " not found in embedded FS or disk") id :=
    ⟨"template ", " not found in embedded FS or disk", rfl⟩
  unfold getTemplateContent
  simp only [readFirst]
  cases h0 : sys.embeddedFS ("templates/" ++ id) <;>
  cases h1 : sys.readFile st ("templates/" ++ id) <;>
  cases h2 : sys.readFile st ("../../templates/" ++ id) <;>
  cases h3 : sys.readFile st id <;>
  simp [hc]

/-! ## C10: what `NewProjectConfig` leaves to `Process` -/

/-- C10, counterexample: for the project `myapp`, `NewProjectConfig` leaves
`SampleAPINameLower` and `SampleTableName` empty: the first is not the lower
case `user` of `SampleAPIName`, and the second is neither `users` nor the
plural of the first. -/
theorem NewProjectConfig_derived_unset :
    (NewProjectConfig "myapp").SampleAPIName = "User" ∧
    (NewProjectConfig "myapp").SampleAPINameLower = "" ∧
    (NewProjectConfig "myapp").SampleTableName = "" ∧
    (NewProjectConfig "myapp").SampleAPINameLower ≠
      ToLower latin1Tables (NewProjectConfig "myapp").SampleAPIName ∧
    (NewProjectConfig "myapp").SampleAPINameLower ≠ "user" ∧
    (NewProjectConfig "myapp").SampleTableName ≠
      pluralize (NewProjectConfig "myapp").SampleAPINameLower ∧
    (NewProjectConfig "myapp").SampleTableName ≠ "users" := by
  decide

/-- C10, amended: `NewProjectConfig(name)` gives every field its default, where
the default of the two derived names `SampleAPINameLower` and `SampleTableName`
is the empty string; the naming invariant holds once `Process` has run, which
keeps `User` and derives `user` and `users`. -/
theorem NewProjectConfig_defaults (U : UnicodeTables) (name : String) :
    NewProjectConfig name =
      { ProjectName := name, ModuleName := "github.com/username/" ++ name,
        Description := "A " ++ name ++ " service", Author := "", GoVersion := "1.23",
        OutputDir := ".", WithRedis := true, WithKafka := true, SampleAPIName := "User",
        SampleAPINameLower := "", SampleTableName := "", MySQLVersion := "8.0",
        RedisVersion := "7-alpine", KafkaVersion := "7.6.0", AppPort := 8080,
        MySQLPort := 3306, RedisPort := 6379, KafkaPort := 9092, KafkaUIPort := 8090,
        SkipGit := false } ∧
    (Process U (NewProjectConfig name)).SampleAPIName = "User" ∧
    (Process U (NewProjectConfig name)).SampleAPINameLower = "user" ∧
    (Process U (NewProjectConfig name)).SampleTableName = "users" ∧
    (Process U (NewProjectConfig name)).SampleAPINameLower =
      ToLower U (Process U (NewProjectConfig name)).SampleAPIName ∧
    (Process U (NewProjectConfig name)).SampleTableName =
      pluralize (Process U (NewProjectConfig name)).SampleAPINameLower :=
  ⟨rfl, by rfl, by rfl, by rfl, rfl, rfl⟩

/-! ## Lemmas on `filepath.Clean` and `filepath.Dir` -/

theorem splitSep_elems_free (l : List Char) : ∀ e ∈ splitSep l, '/' ∉ e := by
  induction l with
  | nil => intro e he; simp [splitSep] at he; simp [he]
  | cons ch rest ih =>
    by_cases h : ch = '/'
    · subst h
      rw [splitSep_sep]
      intro e he
      rcases List.mem_cons.1 he with rfl | he2
      · simp
      · exact ih e he2
    · have hne := splitSep_ne_nil rest
      cases hs : splitSep rest with
      | nil => exact absurd hs hne
      | cons e0 es =>
        rw [splitSep_cons ch rest e0 es h hs]
        rw [hs] at ih
        intro e he
        rcases List.mem_cons.1 he with rfl | he2
        · intro hc
          rcases List.mem_cons.1 hc with hc1 | hc2
          · exact h hc1.symm
          · exact ih e0 (by simp) hc2
        · exact ih e (List.mem_cons_of_mem _ he2)

theorem cleanStep_bufOK (rooted : Bool) (b : CleanBuf) (e : List Char) (he : '/' ∉ e)
    (h : BufOK rooted b) : BufOK rooted (cleanStep rooted b e) := by
  obtain ⟨reals, hout, hroot, hreals⟩ := h
  unfold cleanStep
  by_cases h1 : e = []
  · rw [if_pos h1]; exact ⟨reals, hout, hroot, hreals⟩
  rw [if_neg h1]
  by_cases h2 : e = ['.']
  · rw [if_pos h2]; exact ⟨reals, hout, hroot, hreals⟩
  rw [if_neg h2]
  by_cases h3 : e = ['.', '.']
  · rw [if_pos h3]
    have hlen : b.out.length = b.dotdot + reals.length := by
      rw [hout, List.length_append, List.length_replicate]
    by_cases h4 : b.dotdot < b.out.length
    · rw [if_pos h4]
      have hr : reals ≠ [] := by
        intro hr
        rw [hr] at hlen
        simp at hlen
        omega
      refine ⟨reals.dropLast, ?_, hroot, fun x hx => hreals x (List.dropLast_subset _ hx)⟩
      show b.out.dropLast = _
      rw [hout, List.dropLast_append_of_ne_nil _ hr]
    · rw [if_neg h4]
      have hr : reals = [] := by
        apply List.eq_nil_of_length_eq_zero
        omega
      subst hr
      cases hroot2 : rooted
      · refine ⟨[], ?_, by simp, by simp⟩
        show b.out ++ [e] = List.replicate (b.out.length + 1) ['.', '.'] ++ []
        rw [hlen, hout, h3]
        simp [List.replicate_succ']
      · simp only [Bool.not_true, Bool.false_eq_true, if_false]
        exact ⟨[], hout, fun _ => hroot hroot2, by simp⟩
  · rw [if_neg h3]
    refine ⟨reals ++ [e], ?_, hroot, ?_⟩
    · show b.out ++ [e] = _
      rw [hout, List.append_assoc]
    · intro x hx
      rcases List.mem_append.1 hx with hx1 | hx2
      · exact hreals x hx1
      · rw [List.mem_singleton.1 hx2]
        exact ⟨h1, he, h2, h3⟩

theorem foldl_cleanStep_bufOK (rooted : Bool) (segs : List (List Char))
    (hfree : ∀ e ∈ segs, '/' ∉ e) (b : CleanBuf) (h : BufOK rooted b) :
    BufOK rooted (segs.foldl (cleanStep rooted) b) := by
  induction segs generalizing b with
  | nil => exact h
  | cons e rest ih =>
    exact ih (fun x hx => hfree x (List.mem_cons_of_mem _ hx)) _
      (cleanStep_bufOK rooted b e (hfree e (by simp)) h)

theorem cleanBuf_ok (path : String) : BufOK (isRooted path) (cleanBuf path) :=
  foldl_cleanStep_bufOK _ _ (splitSep_elems_free _) ⟨[], 0⟩ ⟨[], rfl, fun _ => rfl, by simp⟩

theorem foldl_cleanStep_dotdots (k : Nat) :
    (List.replicate k ['.', '.']).foldl (cleanStep false) ⟨[], 0⟩ =
      ⟨List.replicate k ['.', '.'], k⟩ := by
  induction k with
  | zero => rfl
  | succ n ih =>
    rw [List.replicate_succ', List.foldl_append, ih]
    simp [cleanStep]

theorem foldl_cleanStep_out (rooted : Bool) (b : CleanBuf) (h : BufOK rooted b) :
    b.out.foldl (cleanStep rooted) ⟨[], 0⟩ = b := by
  obtain ⟨reals, hout, hroot, hreals⟩ := h
  have hd : (List.replicate b.dotdot ['.', '.']).foldl (cleanStep rooted) ⟨[], 0⟩ =
      ⟨List.replicate b.dotdot ['.', '.'], b.dotdot⟩ := by
    cases hr : rooted
    · exact foldl_cleanStep_dotdots b.dotdot
    · rw [hroot hr]; rfl
  rw [hout, List.foldl_append, hd, foldl_cleanStep_plain rooted reals hreals]
  show (⟨List.replicate b.dotdot ['.', '.'] ++ reals, b.dotdot⟩ : CleanBuf) = b
  rw [← hout]

theorem bufOK_elems (rooted : Bool) (b : CleanBuf) (h : BufOK rooted b) :
    ∀ e ∈ b.out, e ≠ [] ∧ '/' ∉ e := by
  obtain ⟨reals, hout, _, hreals⟩ := h
  intro e he
  rw [hout] at he
  rcases List.mem_append.1 he with h1 | h2
  · rw [List.eq_of_mem_replicate h1]
    exact ⟨by simp, by decide⟩
  · exact ⟨(hreals e h2).1, (hreals e h2).2.1⟩

theorem joinPrefix_eq (projectPath : String) :
    joinPrefix projectPath =
      (if isRooted projectPath then ['/'] else []) ++
        (if (cleanBuf projectPath).out = [] then []
          else joinWith ['/'] (cleanBuf projectPath).out ++ ['/']) := by
  by_cases h : projectPath = ""
  · subst h
    decide
  · unfold joinPrefix
    rw [if_neg h]
    rfl

theorem render_append (rooted : Bool) (a b : List (List Char)) (hb : b ≠ []) :
    render rooted (a ++ b) =
      (if rooted then ['/'] else []) ++
        (if a = [] then [] else joinWith ['/'] a ++ ['/']) ++ joinWith ['/'] b := by
  unfold render
  rw [joinWith_append a b hb, List.append_assoc]

theorem Join_plain_render (projectPath : String) (segs : List String) (hne : segs ≠ [])
    (h : ∀ e ∈ segs, Plain e) :
    (Join (projectPath :: segs)).data =
      render (isRooted projectPath) ((cleanBuf projectPath).out ++ segs.map String.data) := by
  rw [Join_plain_data projectPath segs hne h, joinPrefix_eq,
    render_append _ _ _ (by simpa using hne)]

theorem joinWith_ne_nil_of_elems (els : List (List Char)) (hne : els ≠ [])
    (hel : ∀ e ∈ els, e ≠ [] ∧ '/' ∉ e) : joinWith ['/'] els ≠ [] := by
  obtain ⟨e, rest, rfl⟩ := List.exists_cons_of_ne_nil hne
  exact joinWith_cons_ne_nil e rest (hel e (by simp)).1

theorem joinWith_slash (els : List (List Char)) (hne : els ≠ []) :
    joinWith ['/'] els ++ ['/'] = joinWith ['/'] (els ++ [[]]) := by
  rw [joinWith_append els [[]] (by simp), if_neg hne]
  simp [joinWith]

theorem Clean_render_slash (rooted : Bool) (els : List (List Char)) (k : Nat) (hne : els ≠ [])
    (hel : ∀ e ∈ els, e ≠ [] ∧ '/' ∉ e)
    (hfold : els.foldl (cleanStep rooted) ⟨[], 0⟩ = ⟨els, k⟩) :
    Clean ⟨render rooted els ++ ['/']⟩ = ⟨render rooted els⟩ := by
  have hj := joinWith_ne_nil_of_elems els hne hel
  have hfree : ∀ e ∈ els ++ [[]], '/' ∉ e := by
    intro e he
    rcases List.mem_append.1 he with h1 | h2
    · exact (hel e h1).2
    · rw [List.mem_singleton.1 h2]; simp
  have hsplit : splitSep (joinWith ['/'] els ++ ['/']) = els ++ [[]] := by
    rw [joinWith_slash els hne, splitSep_joinWith _ (by simp) hfree]
  have hstep : ∀ b : CleanBuf, cleanStep rooted b [] = b := by
    intro b; simp [cleanStep]
  have hpath : (⟨render rooted els ++ ['/']⟩ : String) ≠ "" := by
    intro hc
    have := congrArg String.data hc
    simp at this
  have hrender : render rooted els ≠ [] := by
    unfold render
    intro hc
    exact hj (List.append_eq_nil.1 hc).2
  obtain ⟨e, rest, rfl⟩ := List.exists_cons_of_ne_nil hne
  have hhead := joinWith_cons_head e rest (hel e (by simp)).1 (hel e (by simp)).2
  unfold Clean
  rw [if_neg hpath]
  cases hr : rooted
  · subst hr
    have h1 : decide ((render false (e :: rest) ++ ['/']).head? = some '/') = false := by
      have h2 : (render false (e :: rest) ++ ['/']).head? = (joinWith ['/'] (e :: rest)).head? := by
        unfold render
        simp only [Bool.false_eq_true, if_false, List.nil_append]
        cases hjw : joinWith ['/'] (e :: rest) with
        | nil => exact absurd hjw hj
        | cons a as => rfl
      rw [h2]
      simpa using hhead
    simp only [h1]
    have h3 : render false (e :: rest) ++ ['/'] = joinWith ['/'] (e :: rest) ++ ['/'] := by
      simp [render]
    rw [h3, hsplit, List.foldl_append, hfold]
    simp only [List.foldl_cons, List.foldl_nil, hstep, Bool.false_eq_true, if_false,
      List.nil_append]
    rw [if_neg hj]
    simp [render]
  · subst hr
    have h1 : decide ((render true (e :: rest) ++ ['/']).head? = some '/') = true := by
      simp [render]
    simp only [h1]
    have h3 : render true (e :: rest) ++ ['/'] = '/' :: (joinWith ['/'] (e :: rest) ++ ['/']) := by
      simp [render]
    rw [h3, splitSep_sep, hsplit, List.foldl_cons, hstep, List.foldl_append, hfold]
    simp only [List.foldl_cons, List.foldl_nil, hstep, if_true]
    have h4 : ¬ (['/'] ++ joinWith ['/'] (e :: rest) = []) := by simp
    rw [if_neg h4]
    simp [render]

theorem rdropWhile_append_of_all (p : Char → Bool) (z last : List Char)
    (h : ∀ x ∈ last, p x = true) : (z ++ last).rdropWhile p = z.rdropWhile p := by
  induction last using List.reverseRecOn with
  | nil => simp
  | append_singleton init x ih =>
    rw [← List.append_assoc, List.rdropWhile_concat_pos _ _ _ (h x (by simp))]
    exact ih (fun y hy => h y (List.mem_append_left _ hy))

theorem dirPart_of_slash (z last : List Char) (hlast : '/' ∉ last) :
    (z ++ ['/'] ++ last).rdropWhile (fun ch => decide (ch ≠ '/')) = z ++ ['/'] := by
  rw [rdropWhile_append_of_all _ _ _ (by
    intro x hx
    have : x ≠ '/' := fun hc => hlast (hc ▸ hx)
    simpa using this)]
  exact List.rdropWhile_concat_neg _ _ _ (by simp)

theorem dirPart_of_free (last : List Char) (hlast : '/' ∉ last) :
    last.rdropWhile (fun ch => decide (ch ≠ '/')) = [] := by
  rw [List.rdropWhile_eq_nil_iff]
  intro x hx
  have : x ≠ '/' := fun hc => hlast (hc ▸ hx)
  simpa using this

theorem foldl_cleanStep_out_plain (projectPath : String) (segs : List String)
    (h : ∀ e ∈ segs, Plain e) :
    ((cleanBuf projectPath).out ++ segs.map String.data).foldl
        (cleanStep (isRooted projectPath)) ⟨[], 0⟩ =
      ⟨(cleanBuf projectPath).out ++ segs.map String.data, (cleanBuf projectPath).dotdot⟩ := by
  have hp : ∀ e ∈ segs.map String.data, PlainData e := by
    intro e he
    obtain ⟨x, hx, rfl⟩ := List.mem_map.1 he
    exact ⟨(h x hx).nonempty, (h x hx).noSep, (h x hx).notDot, (h x hx).notDotDot⟩
  rw [List.foldl_append, foldl_cleanStep_out _ _ (cleanBuf_ok projectPath),
    foldl_cleanStep_plain _ _ hp]

theorem out_plain_elems (projectPath : String) (segs : List String) (h : ∀ e ∈ segs, Plain e) :
    ∀ e ∈ (cleanBuf projectPath).out ++ segs.map String.data, e ≠ [] ∧ '/' ∉ e := by
  intro e he
  rcases List.mem_append.1 he with h1 | h2
  · exact bufOK_elems _ _ (cleanBuf_ok projectPath) e h1
  · obtain ⟨x, hx, rfl⟩ := List.mem_map.1 h2
    exact ⟨(h x hx).nonempty, (h x hx).noSep⟩

theorem Dir_Join_append (projectPath : String) (init : List String) (last : String)
    (hne : init ≠ []) (hinit : ∀ e ∈ init, Plain e) (hlast : Plain last) :
    Dir (Join (projectPath :: (init ++ [last]))) = Join (projectPath :: init) := by
  have hall : ∀ e ∈ init ++ [last], Plain e := by
    intro e he
    rcases List.mem_append.1 he with h1 | h2
    · exact hinit e h1
    · rw [List.mem_singleton.1 h2]; exact hlast
  have hels : (cleanBuf projectPath).out ++ init.map String.data ≠ [] := by
    simp [hne]
  have hd : (Join (projectPath :: (init ++ [last]))).data =
      render (isRooted projectPath) ((cleanBuf projectPath).out ++ init.map String.data) ++
        ['/'] ++ last.data := by
    rw [Join_plain_render _ _ (by simp) hall, List.map_append, ← List.append_assoc]
    unfold render
    rw [joinWith_append _ _ (by simp), if_neg hels]
    simp [joinWith]
  unfold Dir
  rw [hd, dirPart_of_slash _ _ hlast.noSep,
    Clean_render_slash _ _ _ hels (out_plain_elems projectPath init hinit)
      (foldl_cleanStep_out_plain projectPath init hinit)]
  apply String.ext
  exact (Join_plain_render projectPath init hne hinit).symm

theorem Dir_Join_dropLast (projectPath : String) (segs : List String)
    (hne : segs.dropLast ≠ []) (h : ∀ e ∈ segs, Plain e) :
    Dir (Join (projectPath :: segs)) = Join (projectPath :: segs.dropLast) := by
  have hs : segs ≠ [] := by
    intro hc
    rw [hc] at hne
    exact hne rfl
  have e := List.dropLast_append_getLast hs
  have h1 := Dir_Join_append projectPath segs.dropLast (segs.getLast hs) hne
    (fun x hx => h x (List.dropLast_subset _ hx)) (h _ (List.getLast_mem hs))
  rw [e] at h1
  exact h1

theorem joinPrefix_shape (projectPath : String) :
    joinPrefix projectPath = [] ∨ joinPrefix projectPath = ['/'] ∨
      ((cleanBuf projectPath).out ≠ [] ∧
        joinPrefix projectPath =
          render (isRooted projectPath) (cleanBuf projectPath).out ++ ['/']) := by
  rw [joinPrefix_eq]
  by_cases ho : (cleanBuf projectPath).out = []
  · cases hr : isRooted projectPath <;> simp [ho]
  · right; right
    refine ⟨ho, ?_⟩
    rw [if_neg ho]
    simp [render]

theorem Dir_Join_single (projectPath : String) (e : String) (he : Plain e) :
    Dir (Join [projectPath, e]) = Clean ⟨joinPrefix projectPath⟩ := by
  have hd : (Join [projectPath, e]).data = joinPrefix projectPath ++ e.data := by
    rw [Join_plain_data projectPath [e] (by simp) (by simpa using he)]
    simp [joinWith]
  unfold Dir
  rw [hd]
  rcases joinPrefix_shape projectPath with h | h | ⟨_, h⟩
  · rw [h, List.nil_append, dirPart_of_free _ he.noSep]
  · rw [h]
    have := dirPart_of_slash [] e.data he.noSep
    simp only [List.nil_append] at this
    rw [this]
  · rw [h, dirPart_of_slash _ _ he.noSep]

theorem Clean_joinPrefix_length (projectPath : String) :
    (Clean ⟨joinPrefix projectPath⟩).data.length ≤ (joinPrefix projectPath).length + 1 := by
  rcases joinPrefix_shape projectPath with h | h | ⟨ho, h⟩
  · rw [h]; decide
  · rw [h]; decide
  · rw [h, Clean_render_slash _ _ _ ho (by
        have := out_plain_elems projectPath [] (by simp)
        simpa using this) (by
        have := foldl_cleanStep_out_plain projectPath [] (by simp)
        simpa using this)]
    simp only [List.length_append, List.length_singleton]
    omega

theorem Clean_joinPrefix_ne_Join (projectPath : String) (segs : List String) (hne : segs ≠ [])
    (h : ∀ e ∈ segs, Plain e) (hlen : 2 ≤ (joinWith ['/'] (segs.map String.data)).length) :
    Clean ⟨joinPrefix projectPath⟩ ≠ Join (projectPath :: segs) := by
  intro hc
  have h1 := congrArg (fun s => s.data.length) hc
  simp only [Join_plain_data projectPath segs hne h, List.length_append] at h1
  have h2 := Clean_joinPrefix_length projectPath
  omega

/-! ## C11: every file goes into a directory of the directory step -/

theorem directories_eq (c : ProjectConfig) (projectPath : String) :
    directories c projectPath =
      projectPath :: (dirElems c).map fun segs => Join (projectPath :: segs) := rfl

theorem dirElems_plain (c : ProjectConfig) (hL : Plain c.SampleAPINameLower) :
    ∀ segs ∈ dirElems c, segs ≠ [] ∧ ∀ e ∈ segs, Plain e := by
  simp only [dirElems, List.forall_mem_cons, List.not_mem_nil, ne_eq, reduceCtorEq,
    not_false_eq_true, true_and, false_implies, implies_true, and_true]
  repeat' apply And.intro
  all_goals
    first
    | exact hL
    | exact plain_of_decide _ (by decide)

theorem fileElems_parent (c : ProjectConfig) :
    ∀ p ∈ fileElems c,
      p.2.dropLast = [] ∨ p.2.dropLast ∈ dirElems c ∨
        p.2.dropLast ++ ["config"] ∈ dirElems c ∨
        p.2.dropLast ++ ["migrations"] ∈ dirElems c ∨
        p.2.dropLast ++ ["health"] ∈ dirElems c := by
  simp [fileElems, dirElems]

theorem Join_mem_directories (c : ProjectConfig) (projectPath : String) (segs : List String)
    (h : segs ∈ dirElems c) : Join (projectPath :: segs) ∈ directories c projectPath := by
  rw [directories_eq]
  exact List.mem_cons_of_mem _ (List.mem_map.2 ⟨segs, h, rfl⟩)

theorem properAncestor_of_child (c : ProjectConfig) (projectPath : String)
    (hL : Plain c.SampleAPINameLower) (init : List String) (x : String) (hne : init ≠ [])
    (hmem : init ++ [x] ∈ dirElems c) :
    ∃ m ∈ directories c projectPath, ProperAncestor (Join (projectPath :: init)) m := by
  have hp := (dirElems_plain c hL _ hmem).2
  have hinit : ∀ e ∈ init, Plain e := fun e he => hp e (List.mem_append_left _ he)
  have hx : Plain x := hp x (by simp)
  refine ⟨Join (projectPath :: (init ++ [x])), Join_mem_directories c projectPath _ hmem, ?_, 1,
    ?_⟩
  · intro hc
    have := Join_plain_injective projectPath init (init ++ [x]) ⟨hne, hinit⟩ ⟨by simp, hp⟩ hc
    have hl := congrArg List.length this
    simp at hl
  · exact (Dir_Join_append projectPath init x hne hinit hx).symm

theorem properAncestor_of_root (c : ProjectConfig) (projectPath : String) :
    ∃ m ∈ directories c projectPath, ProperAncestor (Clean ⟨joinPrefix projectPath⟩) m := by
  have hcmd : Plain "cmd" := plain_of_decide _ (by decide)
  have hserver : Plain "server" := plain_of_decide _ (by decide)
  have hall : ∀ e ∈ ["cmd", "server"], Plain e := by
    intro e he
    simp only [List.mem_cons, List.mem_singleton, List.not_mem_nil, or_false] at he
    rcases he with rfl | rfl
    · exact hcmd
    · exact hserver
  refine ⟨Join [projectPath, "cmd", "server"],
    Join_mem_directories c projectPath ["cmd", "server"] (by simp [dirElems]), ?_, 2, ?_⟩
  · exact Clean_joinPrefix_ne_Join projectPath ["cmd", "server"] (by simp) hall (by decide)
  · have h1 : Dir (Join [projectPath, "cmd", "server"]) = Join [projectPath, "cmd"] :=
      Dir_Join_append projectPath ["cmd"] "server" (by simp) (by simpa using hcmd) hserver
    show _ = Dir (Dir (Join [projectPath, "cmd", "server"]))
    rw [h1, Dir_Join_single projectPath "cmd" hcmd]

/-- C11: when the lower-cased sample entity name is a single path segment (not
empty, without a path separator, neither `.` nor `..`), the parent directory
`filepath.Dir` of every destination path of `generateFiles` is a member of the
directory list of `createDirectoryStructure` or a proper ancestor of a member,
under any project path. -/
theorem manifest_coherent (c : ProjectConfig) (projectPath : String)
    (hL : Plain c.SampleAPINameLower) :
    ∀ dest ∈ destinations c projectPath,
      Dir dest ∈ directories c projectPath ∨
        ∃ m ∈ directories c projectPath, ProperAncestor (Dir dest) m := by
  intro dest hdest
  rw [destinations_eq_map] at hdest
  obtain ⟨segs, hsegs, rfl⟩ := List.mem_map.1 hdest
  obtain ⟨p, hp, rfl⟩ := List.mem_map.1 hsegs
  obtain ⟨hne, hplain⟩ := fileElems_plain c hL p hp
  by_cases hd : p.2.dropLast = []
  · right
    have e := List.dropLast_append_getLast hne
    rw [hd, List.nil_append] at e
    rw [← e, Dir_Join_single projectPath _ (hplain _ (List.getLast_mem hne))]
    exact properAncestor_of_root c projectPath
  · rw [Dir_Join_dropLast projectPath p.2 hd hplain]
    rcases fileElems_parent c p hp with h0 | h1 | h2 | h3 | h4
    · exact absurd h0 hd
    · exact Or.inl (Join_mem_directories c projectPath _ h1)
    · exact Or.inr (properAncestor_of_child c projectPath hL _ _ hd h2)
    · exact Or.inr (properAncestor_of_child c projectPath hL _ _ hd h3)
    · exact Or.inr (properAncestor_of_child c projectPath hL _ _ hd h4)

set_option maxRecDepth 100000 in
/-- Witness for C11 on the processed default configuration, whose sample entity
is `user`: the entry `internal/application.go` goes into `myapp/internal`, which
is not in the directory list but is the parent of its member
`myapp/internal/config`. -/
theorem manifest_coherent_witness :
    Plain defaultConfig.SampleAPINameLower ∧
    "myapp/internal/application.go" ∈ destinations defaultConfig (projectPathOf defaultConfig) ∧
    Dir "myapp/internal/application.go" = "myapp/internal" ∧
    "myapp/internal" ∉ directories defaultConfig (projectPathOf defaultConfig) ∧
    Dir "myapp/internal/config" = "myapp/internal" ∧
    (Dir "myapp/internal/application.go" ∈ directories defaultConfig (projectPathOf defaultConfig) ∨
      ∃ m ∈ directories defaultConfig (projectPathOf defaultConfig),
        ProperAncestor (Dir "myapp/internal/application.go") m) :=
  ⟨plain_of_decide _ (by decide), by decide, by decide, by decide, by decide,
    manifest_coherent defaultConfig (projectPathOf defaultConfig) (plain_of_decide _ (by decide))
      "myapp/internal/application.go" (by decide)⟩

end ReadyGo
